import Mathlib

/-!
Verification development for the streamdown-rs streaming markdown renderer.

The Rust sources are shallowly embedded: a Rust `&str` (already decoded
UTF-8) is modelled as `List Char`; where the source measures *bytes*
(`str::len`, regex byte spans) the embedding uses `Char.utf8Size` sums or
notes why char positions are order-isomorphic to the byte offsets used.
The anchored regular expressions of `streamdown-parser/src/lib.rs` are
hand-translated to total scanner functions; each doc comment cites the
pattern it implements, and the translation follows the Rust `regex`
crate's leftmost-first, greedy-with-backtracking semantics.
-/

set_option maxRecDepth 10000

namespace Streamdown

/-- Rust `&str` modelled as a list of unicode scalar values. -/
abbrev Str := List Char

/-- Unicode `White_Space` property, the set matched by Rust's
`char::is_whitespace` and by `\s` in the (Unicode-default) `regex` crate:
U+0009..U+000D, U+0020, U+0085, U+00A0, U+1680, U+2000..U+200A, U+2028,
U+2029, U+202F, U+205F, U+3000. -/
def isWs (c : Char) : Bool :=
  (0x9 ≤ c.toNat && c.toNat ≤ 0xd) || c.toNat = 0x20 || c.toNat = 0x85 ||
  c.toNat = 0xa0 || c.toNat = 0x1680 ||
  (0x2000 ≤ c.toNat && c.toNat ≤ 0x200a) ||
  c.toNat = 0x2028 || c.toNat = 0x2029 || c.toNat = 0x202f ||
  c.toNat = 0x205f || c.toNat = 0x3000

/-- ASCII decimal digit, the set matched by `\d` on the inputs in scope. -/
def isDigitC (c : Char) : Bool :=
  '0' ≤ c && c ≤ '9'

/-- Drop the maximal whitespace prefix (`chars().skip_while(ws)`). -/
def dropWs : Str → Str
  | [] => []
  | c :: r => if isWs c then dropWs r else c :: r

/-- Take the maximal whitespace prefix. -/
def takeWs : Str → Str
  | [] => []
  | c :: r => if isWs c then c :: takeWs r else []

/-- Count of leading whitespace characters:
`line.chars().take_while(|c| c.is_whitespace()).count()` from the source. -/
def leadingWs (l : Str) : Nat :=
  (takeWs l).length

/-- Rust `str::trim` (both ends, Unicode whitespace). -/
def rustTrim (l : Str) : Str :=
  ((dropWs ((dropWs l.reverse)).reverse))

/-- Rust `str::trim_start`. -/
def rustTrimStart (l : Str) : Str :=
  dropWs l

/-- Rust `str::trim_end`. -/
def rustTrimEnd (l : Str) : Str :=
  (dropWs l.reverse).reverse

/-- UTF-8 byte length of a string (`str::len` in Rust): the sum of the
characters' UTF-8 encoded sizes. -/
def utf8Len (l : Str) : Nat :=
  (l.map (fun c => c.utf8Size)).sum

/-- Substring test: Rust `str::contains(&str)`. -/
def containsSub (hay needle : Str) : Bool :=
  match hay with
  | [] => needle.isEmpty
  | _ :: r => needle.isPrefixOf hay || containsSub r needle

/-- Literal-prefix match helper: returns the remainder after `lit`. -/
def matchLit : Str → Str → Option Str
  | [], l => some l
  | _ :: _, [] => none
  | a :: la, b :: lb => if a = b then matchLit la lb else none

/-- Count of occurrences of a character (Rust `str::matches(c).count()`). -/
def countChar (c : Char) (l : Str) : Nat :=
  l.countP (fun d => d = c)

/-- The backtick character, U+0060. -/
def btick : Char := Char.ofNat 0x60

/-- The ANSI escape character, U+001B. -/
def escCh : Char := Char.ofNat 0x1b

-- =============================================================================
-- Block-level regex translations (streamdown-parser/src/lib.rs, lines 45-74)
-- =============================================================================

/-- Maximal run length of `c` at the head of `l`. -/
def runLen (c : Char) : Str → Nat
  | [] => 0
  | d :: r => if d = c then runLen c r + 1 else 0

/-- CODE_FENCE_RE `^\s*(```+|~~~+|<pre>)\s*([^\s]*)\s*$`, returning the
fence (group 1) and the language word (group 2). After the fence, the rest
must be whitespace, one whitespace-free word, and whitespace. -/
def codeFenceCapture (line : Str) : Option (Str × Str) := do
  let r := dropWs line
  let (fence, rest) ←
    if 3 ≤ runLen btick r then
      some (r.take (runLen btick r), r.drop (runLen btick r))
    else if 3 ≤ runLen '~' r then
      some (r.take (runLen '~' r), r.drop (runLen '~' r))
    else
      match matchLit ("<pre>".data) r with
      | some rest => some ("<pre>".data, rest)
      | none => none
  let r2 := dropWs rest
  let word := r2.takeWhile (fun c => !isWs c)
  let r3 := r2.drop word.length
  if (dropWs r3).isEmpty then some (fence, word) else none

/-- CODE_FENCE_END_RE `^\s*(```+|~~~+|</pre>)\s*$`, returning the closing
fence (group 1). -/
def codeFenceEndCapture (line : Str) : Option Str := do
  let r := dropWs line
  let (fence, rest) ←
    if 3 ≤ runLen btick r then
      some (r.take (runLen btick r), r.drop (runLen btick r))
    else if 3 ≤ runLen '~' r then
      some (r.take (runLen '~' r), r.drop (runLen '~' r))
    else
      match matchLit ("</pre>".data) r with
      | some rest => some ("</pre>".data, rest)
      | none => none
  if (dropWs rest).isEmpty then some fence else none

/-- SPACE_CODE_RE `^    \s*[^\s*]` (is_match): four literal spaces, then
optional whitespace, then one character that is neither whitespace nor
`*`. -/
def spaceCodeMatch (line : Str) : Bool :=
  match line with
  | ' ' :: ' ' :: ' ' :: ' ' :: rest =>
    match dropWs rest with
    | [] => false
    | c :: _ => c ≠ '*'
  | _ => false

/-- HEADING_RE `^(#{1,6})\s+(.*)$`: 1..6 hashes followed by at least one
whitespace character; the content is the rest with all the leading
whitespace of `\s+` consumed greedily. Returns (hash count, content). -/
def headingCapture (line : Str) : Option (Nat × Str) :=
  let r := runLen '#' line
  if 1 ≤ r ∧ r ≤ 6 then
    match line.drop r with
    | c :: rest => if isWs c then some (r, dropWs rest) else none
    | [] => none
  else none

/-- HR_RE `^(---+|\*\*\*+|___+)\s*$` applied by the source to
`line.trim()`: a run of at least three `-`, `*` or `_` followed only by
whitespace. -/
def hrMatch (t : Str) : Bool :=
  match t with
  | c :: _ =>
    (c = '-' || c = '*' || c = '_') &&
      3 ≤ runLen c t && (dropWs (t.drop (runLen c t))).isEmpty
  | [] => false

/-- LIST_ITEM_RE `^(\s*)([+*-]|\+-+|\d+\.)\s+(.*)$`. Alternatives are
tried leftmost-first: a single `+`/`*`/`-`, then `+` with a dash run,
then a digit run with a dot; each must be followed by `\s+`, whose
greedy run is consumed before the content group. Returns
(indent group, bullet group, content group). -/
def listItemCapture (line : Str) : Option (Str × Str × Str) :=
  let ind := takeWs line
  let r := line.drop ind.length
  let afterBullet : Str → Option Str := fun rest =>
    match rest with
    | c :: rest2 => if isWs c then some (dropWs rest2) else none
    | [] => none
  match r with
  | c :: rest =>
    if c = '+' ∨ c = '*' ∨ c = '-' then
      match afterBullet rest with
      | some content => some (ind, [c], content)
      | none =>
        -- second alternative `\+-+`: only a `+` head can still match
        if c = '+' ∧ 1 ≤ runLen '-' rest then
          let ds := runLen '-' rest
          match afterBullet (rest.drop ds) with
          | some content => some (ind, '+' :: rest.take ds, content)
          | none => none
        else none
    else if isDigitC c then
      let digits := r.takeWhile isDigitC
      match r.drop digits.length with
      | '.' :: rest3 =>
        (match afterBullet rest3 with
         | some content => some (ind, digits ++ ['.'], content)
         | none => none)
      | _ => none
    else none
  | [] => none

/-- TABLE_ROW_RE `^\s*\|(.+)\|\s*$`: after optional whitespace a `|`, then
the greedy group backtracks to the last `|` that is followed only by
whitespace; the inner group must be non-empty. Returns the inner text. -/
def tableRowCapture (line : Str) : Option Str :=
  match dropWs line with
  | '|' :: rest =>
    let rt := rustTrimEnd rest
    match rt.reverse with
    | '|' :: innerRev =>
      if innerRev.isEmpty then none else some innerRev.reverse
    | _ => none
  | _ => none

/-- TABLE_SEP_RE `^[\s|:-]+$`: non-empty, every character whitespace or
one of `|`, `:`, `-`. -/
def tableSepMatch (inner : Str) : Bool :=
  !inner.isEmpty && inner.all (fun c => isWs c || c = '|' || c = ':' || c = '-')

/-- Loop of BLOCK_RE's alternative `(>\s*)+`: one or more
`>`-plus-whitespace iterations, greedy; the fuel starts at the input
length and every iteration consumes at least the `>`. Returns the matched
marker and the remainder. -/
def quoteRunGo : Nat → Str → Option (Str × Str)
  | 0, _ => none
  | fuel + 1, l =>
    match l with
    | '>' :: r =>
      let w := takeWs r
      let r2 := r.drop w.length
      (match quoteRunGo fuel r2 with
       | some (m, rest) => some ('>' :: (w ++ m), rest)
       | none => some ('>' :: w, r2))
    | _ => none

/-- BLOCK_RE alternative `(>\s*)+`. -/
def quoteRun (l : Str) : Option (Str × Str) :=
  quoteRunGo l.length l

/-- Tail `think[>▷]?` of BLOCK_RE's third alternative: the literal, then a
greedily optional closer. Returns (marker so far, remainder). -/
def thinkTail (consumed : Str) (r : Str) : Option (Str × Str) :=
  match matchLit ("think".data) r with
  | some (c :: rest2) =>
    if c = '>' ∨ c = '▷' then some (consumed ++ "think".data ++ [c], rest2)
    else some (consumed ++ "think".data, c :: rest2)
  | some [] => some (consumed ++ "think".data, [])
  | none => none

/-- BLOCK_RE alternative `[◁<].?think[>▷]`: the closer is mandatory and
`.?` prefers consuming one character (backtracking to empty). -/
def thinkAlt2 : Str → Option (Str × Str)
  | c0 :: r =>
    if c0 = '◁' ∨ c0 = '<' then
      (match r with
       | c1 :: r2 =>
         (match matchLit ("think".data) r2 with
          | some (c2 :: rest) =>
            if c2 = '>' ∨ c2 = '▷' then
              some (c0 :: c1 :: ("think".data ++ [c2]), rest)
            else none
          | _ => none)
       | [] => none).orElse
      (fun _ =>
        match matchLit ("think".data) r with
        | some (c2 :: rest) =>
          if c2 = '>' ∨ c2 = '▷' then some (c0 :: ("think".data ++ [c2]), rest)
          else none
        | _ => none)
    else none
  | [] => none

/-- BLOCK_RE alternative `</?.?think[>▷]?`: optional slash, optional any
character, the literal, optional closer; quantifiers prefer consuming,
rightmost backtracks first. -/
def thinkAlt3 : Str → Option (Str × Str)
  | '<' :: r =>
    let withDot : Str → Str → Option (Str × Str) := fun consumed s =>
      (match s with
       | c :: s2 => thinkTail (consumed ++ [c]) s2
       | [] => none).orElse (fun _ => thinkTail consumed s)
    (match r with
     | '/' :: r2 => withDot ['<', '/'] r2
     | _ => none).orElse (fun _ => withDot ['<'] r)
  | _ => none

/-- BLOCK_RE `^\s*((>\s*)+|[◁<].?think[>▷]|</?.?think[>▷]?)(.*)$`:
returns (marker group 1, content group 3). -/
def blockCapture (line : Str) : Option (Str × Str) :=
  let r := dropWs line
  match quoteRun r with
  | some (m, rest) => some (m, rest)
  | none => (thinkAlt2 r).orElse (fun _ => thinkAlt3 r)

-- =============================================================================
-- Inline tokenizer (streamdown-parser/src/tokenizer.rs)
-- =============================================================================

/-- Token type of `tokenizer.rs`. -/
inductive Token where
  | Text (s : Str)
  | TripleAsterisk
  | DoubleAsterisk
  | Asterisk
  | TripleUnderscore
  | DoubleUnderscore
  | Underscore
  | DoubleAsteriskUnderscore
  | UnderscoreDoubleAsterisk
  | DoubleTilde
  | Backticks (n : Nat)
  | Link (text url : Str)
  | Image (alt url : Str)
  | Footnote (n : Nat)
deriving Repr, DecidableEq

/-- Characters that INLINE_TOKEN_RE's text class `[^~_*`]+` accepts. -/
def isTextChar (c : Char) : Bool :=
  c ≠ '~' && c ≠ '_' && c ≠ '*' && c ≠ btick

/-- Marker string of a token (`Token::marker_str`); `None` exactly for
Text, Link, Image, Footnote and Backticks. -/
def Token.markerStr : Token → Option Str
  | .TripleAsterisk => some ("***".data)
  | .DoubleAsterisk => some ("**".data)
  | .Asterisk => some ("*".data)
  | .TripleUnderscore => some ("___".data)
  | .DoubleUnderscore => some ("__".data)
  | .Underscore => some ("_".data)
  | .DoubleAsteriskUnderscore => some ("**_".data)
  | .UnderscoreDoubleAsterisk => some ("_**".data)
  | .DoubleTilde => some ("~~".data)
  | _ => none

/-- Scanner loop for INLINE_TOKEN_RE
`(```+|~~|\*\*\*|\*\*_|_\*\*|\*\*|\*|___|__|_|`+|[^~_*`]+)` under
`find_iter`: leftmost-first alternatives, maximal backtick and text runs;
a position matching no alternative (a lone `~`) is skipped without
producing a token. The fuel starts at the input length; every iteration
consumes at least one character, so the zero-fuel case is reached only on
the empty remainder. -/
def tokenizeInlineGo : Nat → Str → List Token
  | 0, _ => []
  | _ + 1, [] => []
  | fuel + 1, c :: rest =>
    if c = btick then
      let n := runLen btick rest
      Token.Backticks (n + 1) :: tokenizeInlineGo fuel (rest.drop n)
    else if c = '~' then
      if rest.take 1 = ['~'] then Token.DoubleTilde :: tokenizeInlineGo fuel (rest.drop 1)
      else tokenizeInlineGo fuel rest
    else if c = '*' then
      if rest.take 2 = ['*', '*'] then
        Token.TripleAsterisk :: tokenizeInlineGo fuel (rest.drop 2)
      else if rest.take 2 = ['*', '_'] then
        Token.DoubleAsteriskUnderscore :: tokenizeInlineGo fuel (rest.drop 2)
      else if rest.take 1 = ['*'] then
        Token.DoubleAsterisk :: tokenizeInlineGo fuel (rest.drop 1)
      else Token.Asterisk :: tokenizeInlineGo fuel rest
    else if c = '_' then
      if rest.take 2 = ['*', '*'] then
        Token.UnderscoreDoubleAsterisk :: tokenizeInlineGo fuel (rest.drop 2)
      else if rest.take 2 = ['_', '_'] then
        Token.TripleUnderscore :: tokenizeInlineGo fuel (rest.drop 2)
      else if rest.take 1 = ['_'] then
        Token.DoubleUnderscore :: tokenizeInlineGo fuel (rest.drop 1)
      else Token.Underscore :: tokenizeInlineGo fuel rest
    else
      Token.Text (c :: rest.takeWhile isTextChar) ::
        tokenizeInlineGo fuel (rest.drop (rest.takeWhile isTextChar).length)

/-- Entry point of the INLINE_TOKEN_RE scanner. -/
def tokenizeInline (l : Str) : List Token :=
  tokenizeInlineGo l.length l

/-- CJK test of `tokenizer.rs::is_cjk`: the exact ranges of the source. -/
def isCjk (c : Char) : Bool :=
  (0x4E00 ≤ c.toNat && c.toNat ≤ 0x9FFF) ||
  (0x3400 ≤ c.toNat && c.toNat ≤ 0x4DBF) ||
  (0x20000 ≤ c.toNat && c.toNat ≤ 0x2A6DF) ||
  (0x2A700 ≤ c.toNat && c.toNat ≤ 0x2B73F) ||
  (0x2B740 ≤ c.toNat && c.toNat ≤ 0x2B81F) ||
  (0xF900 ≤ c.toNat && c.toNat ≤ 0xFAFF) ||
  (0x3000 ≤ c.toNat && c.toNat ≤ 0x303F) ||
  (0x3040 ≤ c.toNat && c.toNat ≤ 0x309F) ||
  (0x30A0 ≤ c.toNat && c.toNat ≤ 0x30FF) ||
  (0x31F0 ≤ c.toNat && c.toNat ≤ 0x31FF) ||
  (0xAC00 ≤ c.toNat && c.toNat ≤ 0xD7AF) ||
  (0x1100 ≤ c.toNat && c.toNat ≤ 0x11FF) ||
  (0xFF00 ≤ c.toNat && c.toNat ≤ 0xFFEF)

/-- Count of CJK characters (`tokenizer.rs::cjk_count`). -/
def cjkCount (s : Str) : Nat :=
  (s.filter isCjk).length

/-- Value of an all-digit string. -/
def digitsToNat (s : Str) : Nat :=
  s.foldl (fun a c => a * 10 + (c.toNat - 48)) 0

/-- Rust alphanumerics (`char::is_alphanumeric`): modelled on the ASCII
letters and digits plus the CJK ranges, the fragment every input in this
development lives in (the full Unicode Alphabetic table is external to
the repository). -/
def rustIsAlnum (c : Char) : Bool :=
  ('a' ≤ c && c ≤ 'z') || ('A' ≤ c && c ≤ 'Z') || isDigitC c || isCjk c

/-- Tail of an IMAGE_RE match `!\[([^\]]*)\]\(([^\)]+)\)` after the
leading `![`; returns (total match length, alt, url). -/
def tryImageTail (r : Str) : Option (Nat × Str × Str) :=
  let alt := r.takeWhile (fun c => c ≠ ']')
  match r.drop alt.length with
  | ']' :: '(' :: r2 =>
    let url := r2.takeWhile (fun c => c ≠ ')')
    if url.isEmpty then none
    else
      match r2.drop url.length with
      | ')' :: _ => some (2 + alt.length + 2 + url.length + 1, alt, url)
      | _ => none
  | _ => none

/-- IMAGE_RE `find_iter`: leftmost non-overlapping matches, each with its
span in character positions. Regex byte offsets always fall on character
boundaries, and the map from character index to byte offset is strictly
monotone, so all later span comparisons are unaffected by the choice of
unit. -/
def findImagesGo : Nat → Nat → Str → List (Nat × Nat × Token)
  | 0, _, _ => []
  | _ + 1, _, [] => []
  | fuel + 1, pos, l =>
    match l with
    | '!' :: '[' :: r2 =>
      (match tryImageTail r2 with
       | some (len, alt, url) =>
         -- the match consumed `len ≥ 6` characters starting at `!`, so the
         -- remainder of the whole list is `r2` minus `len - 2`
         (pos, pos + len, Token.Image alt url) ::
           findImagesGo fuel (pos + len) (r2.drop (len - 2))
       | none => findImagesGo fuel (pos + 1) ('[' :: r2))
    | _ :: r => findImagesGo fuel (pos + 1) r
    | [] => []

/-- IMAGE_RE `find_iter` entry point (fuel = input length; every
iteration consumes at least one character). -/
def findImages (pos : Nat) (l : Str) : List (Nat × Nat × Token) :=
  findImagesGo l.length pos l

/-- Tail of a LINK_RE match `\[([^\]]+)\]\(([^\)]+)\)` after the leading
`[`; returns (total match length, text, url). -/
def tryLinkTail (r : Str) : Option (Nat × Str × Str) :=
  let text := r.takeWhile (fun c => c ≠ ']')
  if text.isEmpty then none
  else
    match r.drop text.length with
    | ']' :: '(' :: r2 =>
      let url := r2.takeWhile (fun c => c ≠ ')')
      if url.isEmpty then none
      else
        match r2.drop url.length with
        | ')' :: _ => some (1 + text.length + 2 + url.length + 1, text, url)
        | _ => none
    | _ => none

/-- LINK_RE `find_iter` with the source's image-guard: a match whose
preceding character is `!` is consumed but not recorded (the byte test
`line.as_bytes()[start-1] == b'!'` equals "previous char is `!`", as
`!` < 0x80 can never be a UTF-8 continuation byte). -/
def findLinksGo : Nat → Nat → Option Char → Str → List (Nat × Nat × Token)
  | 0, _, _, _ => []
  | _ + 1, _, _, [] => []
  | fuel + 1, pos, prev, l =>
    match l with
    | '[' :: r =>
      (match tryLinkTail r with
       | some (len, text, url) =>
         if 0 < pos ∧ prev = some '!' then
           findLinksGo fuel (pos + len) (some ')') (r.drop (len - 1))
         else
           (pos, pos + len, Token.Link text url) ::
             findLinksGo fuel (pos + len) (some ')') (r.drop (len - 1))
       | none => findLinksGo fuel (pos + 1) (some '[') r)
    | c :: r => findLinksGo fuel (pos + 1) (some c) r
    | [] => []

/-- LINK_RE `find_iter` entry point (fuel = input length). -/
def findLinks (pos : Nat) (prev : Option Char) (l : Str) : List (Nat × Nat × Token) :=
  findLinksGo l.length pos prev l

/-- FOOTNOTE_RE `\[\^(\d+)\]:?` `captures_iter`: the optional colon is
consumed greedily; a numeral not fitting in `u32` fails Rust's
`parse::<u32>` and records no extraction while still consuming its span. -/
def findFootnotesGo : Nat → Nat → Str → List (Nat × Nat × Token)
  | 0, _, _ => []
  | _ + 1, _, [] => []
  | fuel + 1, pos, l =>
    match l with
    | '[' :: '^' :: r2 =>
      let ds := r2.takeWhile isDigitC
      if ds.isEmpty then findFootnotesGo fuel (pos + 1) ('^' :: r2)
      else
        (match r2.drop ds.length with
         | ']' :: r3 =>
           let extra := if r3.take 1 = [':'] then 1 else 0
           let len := 2 + ds.length + 1 + extra
           -- the match consumed `len ≥ 4` characters starting at `[`, so
           -- the remainder of the whole list is `r2` minus `len - 2`
           if digitsToNat ds < 2 ^ 32 then
             (pos, pos + len, Token.Footnote (digitsToNat ds)) ::
               findFootnotesGo fuel (pos + len) (r2.drop (len - 2))
           else findFootnotesGo fuel (pos + len) (r2.drop (len - 2))
         | _ => findFootnotesGo fuel (pos + 1) ('^' :: r2))
    | _ :: r => findFootnotesGo fuel (pos + 1) r
    | [] => []

/-- FOOTNOTE_RE `captures_iter` entry point (fuel = input length). -/
def findFootnotes (pos : Nat) (l : Str) : List (Nat × Nat × Token) :=
  findFootnotesGo l.length pos l

/-- CODE_SPAN_RE ``` ``[^`]+``|`[^`]+` ``` `find_iter`: double-backtick
spans are preferred (leftmost-first alternation), spans are
non-overlapping. Returns byte-boundary-faithful character spans. -/
def findCodeRegionsGo : Nat → Nat → Str → List (Nat × Nat)
  | 0, _, _ => []
  | _ + 1, _, [] => []
  | fuel + 1, pos, c :: r =>
    if c = btick then
      let len? : Option Nat :=
        (if r.take 1 = [btick] then
          let body := (r.drop 1).takeWhile (fun d => d ≠ btick)
          if body.isEmpty then none
          else if ((r.drop 1).drop body.length).take 2 = [btick, btick] then
            some (4 + body.length)
          else none
         else none).orElse (fun _ =>
          let body := r.takeWhile (fun d => d ≠ btick)
          if body.isEmpty then none
          else if (r.drop body.length).take 1 = [btick] then
            some (2 + body.length)
          else none)
      match len? with
      | some len =>
        (pos, pos + len) :: findCodeRegionsGo fuel (pos + len) (r.drop (len - 1))
      | none => findCodeRegionsGo fuel (pos + 1) r
    else findCodeRegionsGo fuel (pos + 1) r

/-- CODE_SPAN_RE `find_iter` entry point (fuel = input length). -/
def findCodeRegions (pos : Nat) (l : Str) : List (Nat × Nat) :=
  findCodeRegionsGo l.length pos l

/-- Stable merge of two start-ascending extraction lists; chained over the
three `find_iter` outputs this equals the source's stable
`sort_by_key(start)` of the pushed-in-order vector. -/
def mergeExtGo : Nat → List (Nat × Nat × Token) → List (Nat × Nat × Token) →
    List (Nat × Nat × Token)
  | 0, a, b => a ++ b
  | _ + 1, [], b => b
  | _ + 1, a, [] => a
  | fuel + 1, x :: a, y :: b =>
    if x.1 ≤ y.1 then x :: mergeExtGo fuel a (y :: b)
    else y :: mergeExtGo fuel (x :: a) b

/-- Stable two-way merge entry point (fuel = combined length; every
iteration moves one element). -/
def mergeExt (a b : List (Nat × Nat × Token)) : List (Nat × Nat × Token) :=
  mergeExtGo (a.length + b.length) a b

/-- Retain-filter of `tokenize_with_extractions`: drop extractions lying
fully inside a detected code span. -/
def outsideCode (regions : List (Nat × Nat)) (e : Nat × Nat × Token) : Bool :=
  !(regions.any (fun r => r.1 ≤ e.1 && e.2.1 ≤ r.2))

/-- Overlap removal: keep an extraction only when it starts at or after
the end of the previously kept one. -/
def dropOverlap (lastEnd : Option Nat) : List (Nat × Nat × Token) → List (Nat × Nat × Token)
  | [] => []
  | (s, e, t) :: rest =>
    match lastEnd with
    | none => (s, e, t) :: dropOverlap (some e) rest
    | some le => if s ≥ le then (s, e, t) :: dropOverlap (some e) rest
                 else dropOverlap (some le) rest

/-- Interleaving step of `tokenize_with_extractions`: inline-tokenize the
text between extractions, inserting the extracted tokens in place. -/
def interleaveExts (line : Str) (lastEnd : Nat) : List (Nat × Nat × Token) → List Token
  | [] =>
    if lastEnd < line.length then tokenizeInline (line.drop lastEnd) else []
  | (s, e, t) :: rest =>
    (if s > lastEnd then tokenizeInline ((line.drop lastEnd).take (s - lastEnd)) else [])
      ++ t :: interleaveExts line e rest

/-- Full `Tokenizer::tokenize` (tokenize_with_extractions): extract
images, links, footnotes; drop those inside inline code spans; stably
sort; drop overlaps; then tokenize the remaining segments. -/
def tokenize (procLinks procImages : Bool) (line : Str) : List Token :=
  let images := if procImages then findImages 0 line else []
  let links := if procLinks then findLinks 0 none line else []
  let feet := findFootnotes 0 line
  let regions := findCodeRegions 0 line
  let exts := mergeExt (mergeExt (images.filter (outsideCode regions))
      (links.filter (outsideCode regions))) (feet.filter (outsideCode regions))
  interleaveExts line 0 (dropOverlap none exts)

-- =============================================================================
-- Inline formatter (streamdown-parser/src/inline.rs)
-- =============================================================================

/-- Inline elements of `inline.rs`. -/
inductive InlineElement where
  | Text (s : Str)
  | Bold (s : Str)
  | Italic (s : Str)
  | BoldItalic (s : Str)
  | Underline (s : Str)
  | Strikeout (s : Str)
  | Code (s : Str)
  | Link (text url : Str)
  | Image (alt url : Str)
  | Footnote (s : Str)
deriving Repr, DecidableEq

/-- FormatState of `inline.rs`. -/
structure FormatState where
  bold : Bool := false
  italic : Bool := false
  underline : Bool := false
  strikeout : Bool := false
  codeBackticks : Option Nat := none
  codeBuffer : Str := []
deriving Repr, DecidableEq

/-- InlineParser::emit_formatted — tag the flushed text by the pre-toggle
state with priority bold+italic > bold > italic > underline > strikeout. -/
def emitFormatted (st : FormatState) (text : Str) : List InlineElement :=
  if text.isEmpty then []
  else if st.bold && st.italic then [InlineElement.BoldItalic text]
  else if st.bold then [InlineElement.Bold text]
  else if st.italic then [InlineElement.Italic text]
  else if st.underline then [InlineElement.Underline text]
  else if st.strikeout then [InlineElement.Strikeout text]
  else [InlineElement.Text text]

/-- Strip one leading and one trailing literal space from a captured code
span (`strip_prefix(' ')` then the suffix analogue). -/
def stripOneSpace (s : Str) : Str :=
  let s1 := match s with
    | ' ' :: r => r
    | other => other
  match s1.getLast? with
  | some ' ' => s1.dropLast
  | _ => s1

/-- SUPER table of `streamdown-ansi/src/codes.rs`. -/
def superChar (d : Nat) : Char :=
  match d with
  | 0 => '⁰' | 1 => '¹' | 2 => '²' | 3 => '³' | 4 => '⁴'
  | 5 => '⁵' | 6 => '⁶' | 7 => '⁷' | 8 => '⁸' | 9 => '⁹'
  | _ => '⁰'

/-- number_to_superscript of `inline.rs`: map the decimal digits of the
number to superscript characters. -/
def numToSuper (n : Nat) : Str :=
  (Nat.toDigits 10 n).map (fun c => superChar (if isDigitC c then c.toNat - 48 else 0))

/-- Is the last character of the previous token (a Text) alphanumeric?
(`InlineParser::parse_tokens`, the Underscore guard.) -/
def prevAlnum (prev : Option Token) : Bool :=
  match prev with
  | some (Token.Text s) =>
    (match s.getLast? with
     | some c => rustIsAlnum c
     | none => false)
  | _ => false

/-- Is the first character of the next token (a Text) alphanumeric? -/
def nextAlnum (next : Option Token) : Bool :=
  match next with
  | some (Token.Text s) =>
    (match s.head? with
     | some c => rustIsAlnum c
     | none => false)
  | _ => false

/-- InlineParser::parse_tokens: the indexed while-loop rendered as a
recursion carrying the previous token (`tokens[i-1]`); the next token
(`tokens[i+1]`) is the head of the remaining list. -/
def parseTokensAux (st : FormatState) (buffer : Str) (prev : Option Token) :
    List Token → List InlineElement
  | [] =>
    emitFormatted st buffer ++
      (match st.codeBackticks with
       | some _ => if st.codeBuffer.isEmpty then [] else [InlineElement.Code st.codeBuffer]
       | none => [])
  | t :: rest =>
    match st.codeBackticks with
    | some n =>
      (match t with
       | Token.Backticks m =>
         if m = n then
           InlineElement.Code (stripOneSpace st.codeBuffer) ::
             parseTokensAux { st with codeBackticks := none, codeBuffer := [] }
               buffer (some t) rest
         else
           parseTokensAux
             { st with codeBuffer := st.codeBuffer ++ List.replicate m btick }
             buffer (some t) rest
       | Token.Text s =>
         parseTokensAux { st with codeBuffer := st.codeBuffer ++ s } buffer (some t) rest
       | _ =>
         parseTokensAux
           { st with codeBuffer := st.codeBuffer ++ (t.markerStr.getD []) }
           buffer (some t) rest)
    | none =>
      match t with
      | Token.Text s => parseTokensAux st (buffer ++ s) (some t) rest
      | Token.Backticks n =>
        emitFormatted st buffer ++
          parseTokensAux { st with codeBackticks := some n } [] (some t) rest
      | Token.TripleAsterisk =>
        emitFormatted st buffer ++
          (if st.bold && st.italic then
            parseTokensAux { st with bold := false, italic := false } [] (some t) rest
           else if !st.bold && !st.italic then
            parseTokensAux { st with bold := true, italic := true } [] (some t) rest
           else parseTokensAux st ("***".data) (some t) rest)
      | Token.DoubleAsterisk =>
        emitFormatted st buffer ++
          parseTokensAux { st with bold := !st.bold } [] (some t) rest
      | Token.Asterisk =>
        emitFormatted st buffer ++
          parseTokensAux { st with italic := !st.italic } [] (some t) rest
      | Token.DoubleAsteriskUnderscore =>
        emitFormatted st buffer ++
          parseTokensAux { st with bold := true, italic := !st.italic } [] (some t) rest
      | Token.UnderscoreDoubleAsterisk =>
        emitFormatted st buffer ++
          parseTokensAux { st with italic := false, bold := false } [] (some t) rest
      | Token.TripleUnderscore =>
        emitFormatted st buffer ++
          (if st.underline && st.italic then
            parseTokensAux { st with underline := false, italic := false } [] (some t) rest
           else if !st.underline && !st.italic then
            parseTokensAux { st with underline := true, italic := true } [] (some t) rest
           else parseTokensAux st ("___".data) (some t) rest)
      | Token.DoubleUnderscore =>
        emitFormatted st buffer ++
          parseTokensAux { st with underline := !st.underline } [] (some t) rest
      | Token.Underscore =>
        if prevAlnum prev && nextAlnum rest.head? then
          parseTokensAux st (buffer ++ ['_']) (some t) rest
        else
          emitFormatted st buffer ++
            parseTokensAux { st with italic := !st.italic } [] (some t) rest
      | Token.DoubleTilde =>
        emitFormatted st buffer ++
          parseTokensAux { st with strikeout := !st.strikeout } [] (some t) rest
      | Token.Link text url =>
        emitFormatted st buffer ++
          InlineElement.Link text url :: parseTokensAux st [] (some t) rest
      | Token.Image alt url =>
        emitFormatted st buffer ++
          InlineElement.Image alt url :: parseTokensAux st [] (some t) rest
      | Token.Footnote n =>
        emitFormatted st buffer ++
          InlineElement.Footnote (numToSuper n) :: parseTokensAux st [] (some t) rest

/-- InlineParser::parse — the entry point: tokenize, then run the token
state machine from the freshly reset FormatState (the Rust struct resets
its state at the end of every call, so each call starts from default). -/
def inlineParse (procLinks procImages : Bool) (line : Str) : List InlineElement :=
  parseTokensAux {} [] none (tokenize procLinks procImages line)

-- =============================================================================
-- Core enums and ParseState (streamdown-core/src/enums.rs, state.rs)
-- =============================================================================

/-- Code-context kind (`enums.rs::Code`). -/
inductive Code where
  | Spaces | Backtick | Header | Body | Flush
deriving Repr, DecidableEq

/-- List kind (`enums.rs::ListType`). -/
inductive ListType where
  | Bullet | Ordered
deriving Repr, DecidableEq

/-- Blockquote/think kind (`enums.rs::BlockType`). -/
inductive BlockType where
  | Quote | Think
deriving Repr, DecidableEq

/-- Table phase (`lib.rs::TableState`). -/
inductive TableState where
  | Header | Body
deriving Repr, DecidableEq

/-- List bullet (`lib.rs::ListBullet`). -/
inductive ListBullet where
  | Dash | Asterisk | Plus | PlusExpand
  | Ordered (n : Nat)
deriving Repr, DecidableEq

/-- Rust `usize::from_str`: optional leading `+`, a non-empty digit
string, and the value must fit in 64 bits. -/
def parseUsize (s : Str) : Option Nat :=
  let body := match s with
    | '+' :: r => r
    | other => other
  if body.isEmpty then none
  else if !body.all isDigitC then none
  else if digitsToNat body < 2 ^ 64 then some (digitsToNat body) else none

/-- Rust `trim_end_matches('.')`: remove every trailing dot. -/
def trimEndDots (s : Str) : Str :=
  (s.reverse.dropWhile (fun c => c = '.')).reverse

/-- ListBullet::parse from `lib.rs`. -/
def ListBullet.parse (s0 : Str) : Option ListBullet :=
  let s := rustTrim s0
  if s.take 1 = ['+'] ∧ 1 < utf8Len s ∧ (s.drop 1).all (fun c => c = '-') then
    some ListBullet.PlusExpand
  else if s = ['-'] then some ListBullet.Dash
  else if s = ['*'] then some ListBullet.Asterisk
  else if s = ['+'] then some ListBullet.Plus
  else if s.getLast? = some '.' then
    (parseUsize (trimEndDots s)).map ListBullet.Ordered
  else none

/-- ListBullet::is_ordered. -/
def ListBullet.isOrdered : ListBullet → Bool
  | ListBullet.Ordered _ => true
  | _ => false

/-- ParseState of `streamdown-core/src/state.rs`, restricted to the fields
the embedded operations read or write. The omitted fields (terminal,
prompt, exec, width, scrape, clipboard, logging, timeout, buffer and the
inline-formatting mirrors) are neither read nor written on any path of
`parse_line`, `finalize` or `reset`. The top of the Rust `Vec` stacks
(`last`/`push`/`pop` at the back) is the HEAD of the embedded lists. -/
structure ParseState where
  firstIndent : Option Nat
  lastLineEmpty : Bool
  codeBuffer : Str
  codeBufferRaw : Str
  codeGen : Nat
  codeLanguage : Option Str
  codeFirstLine : Bool
  codeIndent : Nat
  orderedListNumbers : List Nat
  listItemStack : List (Nat × ListType)
  listIndentText : Nat
  inList : Bool
  inCode : Option Code
  inTable : Option Code
  blockDepth : Nat
  blockType : Option BlockType
  links : Bool
  images : Bool
  codeSpaces : Bool
deriving Repr, DecidableEq

/-- ParseState::new. -/
def ParseState.new : ParseState where
  firstIndent := none
  lastLineEmpty := true
  codeBuffer := []
  codeBufferRaw := []
  codeGen := 0
  codeLanguage := none
  codeFirstLine := false
  codeIndent := 0
  orderedListNumbers := []
  listItemStack := []
  listIndentText := 0
  inList := false
  inCode := none
  inTable := none
  blockDepth := 0
  blockType := none
  links := true
  images := true
  codeSpaces := false

/-- ParseState::is_in_code. -/
def ParseState.isInCode (st : ParseState) : Bool :=
  st.inCode.isSome

/-- ParseState::push_list. -/
def ParseState.pushList (st : ParseState) (indent : Nat) (t : ListType) : ParseState :=
  let st := { st with listItemStack := (indent, t) :: st.listItemStack }
  let st := if t = ListType.Ordered then
    { st with orderedListNumbers := 1 :: st.orderedListNumbers } else st
  { st with inList := true }

/-- ParseState::pop_list. -/
def ParseState.popList (st : ParseState) : Option (Nat × ListType) × ParseState :=
  match st.listItemStack with
  | [] => (none, { st with inList := false })
  | (i, t) :: rest =>
    let st := { st with listItemStack := rest }
    let st := if t = ListType.Ordered then
      { st with orderedListNumbers := st.orderedListNumbers.tail } else st
    (some (i, t), { st with inList := !rest.isEmpty })

/-- ParseState::next_list_number: read the top ordered counter and
post-increment it. -/
def ParseState.nextListNumber (st : ParseState) : Option Nat × ParseState :=
  match st.orderedListNumbers with
  | [] => (none, st)
  | n :: rest => (some n, { st with orderedListNumbers := (n + 1) :: rest })

/-- ParseState::enter_code_block. -/
def ParseState.enterCodeBlock (st : ParseState) (t : Code) (language : Option Str) : ParseState :=
  { st with inCode := some t, codeLanguage := language, codeFirstLine := true,
            codeBuffer := [], codeBufferRaw := [], codeGen := st.codeGen + 1 }

/-- ParseState::exit_code_block. -/
def ParseState.exitCodeBlock (st : ParseState) : ParseState :=
  { st with inCode := none, codeLanguage := none, codeFirstLine := false }

/-- ParseState::enter_block. -/
def ParseState.enterBlock (st : ParseState) (t : BlockType) : ParseState :=
  { st with blockDepth := st.blockDepth + 1, blockType := some t }

/-- ParseState::exit_block. -/
def ParseState.exitBlock (st : ParseState) : ParseState :=
  let st := if st.blockDepth > 0 then { st with blockDepth := st.blockDepth - 1 } else st
  if st.blockDepth = 0 then { st with blockType := none } else st

/-- Iterate a function `n` times (the bounded `for _ in a..b` loops of the
source). -/
def applyN {α : Type} (f : α → α) : Nat → α → α
  | 0, a => a
  | n + 1, a => applyN f n (f a)

/-- The `while st.in_list { st.pop_list(); }` loop, with the fuel
`stack.length + 1`: each iteration either shortens the stack or (on an
empty stack) clears `in_list`, so this fuel always reaches the loop's
exit condition. -/
def popListsN : Nat → ParseState → ParseState
  | 0, st => st
  | n + 1, st => if st.inList then popListsN n (st.popList).2 else st

/-- Pop every open list level (`Parser::exit_list_context`'s loop). -/
def popAllLists (st : ParseState) : ParseState :=
  popListsN (st.listItemStack.length + 1) st

/-- Loop of the indent-compare popping in `try_parse_list_item`: pop
while the top entry's indent is strictly greater than the new item's
indent. Fuel = stack depth; every iteration pops one entry. -/
def popWhileGreaterGo (indent : Nat) : Nat → ParseState → ParseState
  | 0, st => st
  | fuel + 1, st =>
    match st.listItemStack with
    | (si, _) :: _ =>
      if si > indent then popWhileGreaterGo indent fuel (st.popList).2 else st
    | [] => st

/-- The indent-compare pop loop of `try_parse_list_item`. -/
def popWhileGreater (st : ParseState) (indent : Nat) : ParseState :=
  popWhileGreaterGo indent st.listItemStack.length st

-- =============================================================================
-- Parser and events (streamdown-parser/src/lib.rs)
-- =============================================================================

/-- ParseEvent of `lib.rs`. -/
inductive ParseEvent where
  | Text (s : Str)
  | InlineCode (s : Str)
  | Bold (s : Str)
  | Italic (s : Str)
  | Underline (s : Str)
  | Strikeout (s : Str)
  | BoldItalic (s : Str)
  | Link (text url : Str)
  | Image (alt url : Str)
  | Footnote (s : Str)
  | Heading (level : Nat) (content : Str)
  | CodeBlockStart (language : Option Str) (indent : Nat)
  | CodeBlockLine (s : Str)
  | CodeBlockEnd
  | ListItem (indent : Nat) (bullet : ListBullet) (content : Str)
  | ListEnd
  | TableHeader (cells : List Str)
  | TableRow (cells : List Str)
  | TableSeparator
  | TableEnd
  | BlockquoteStart (depth : Nat)
  | BlockquoteLine (s : Str)
  | BlockquoteEnd
  | ThinkBlockStart
  | ThinkBlockLine (s : Str)
  | ThinkBlockEnd
  | HorizontalRule
  | EmptyLine
  | Newline
  | Prompt (s : Str)
  | InlineElements (es : List InlineElement)
deriving Repr, DecidableEq

/-- Parser of `lib.rs`: the `ParseState`, the inline sub-parser's two
settings, and the parser-local fields. The Rust `events` vector is not a
field here: every embedded operation returns the events it appends. -/
structure Parser where
  state : ParseState
  inlineLinks : Bool
  inlineImages : Bool
  codeFence : Option Str
  tableState : Option TableState
  prevWasEmpty : Bool
  listPendingClose : Bool
deriving Repr, DecidableEq

/-- Parser::new. -/
def Parser.new : Parser where
  state := ParseState.new
  inlineLinks := true
  inlineImages := true
  codeFence := none
  tableState := none
  prevWasEmpty := false
  listPendingClose := false

/-- Parser::set_code_spaces. -/
def Parser.setCodeSpaces (p : Parser) (enabled : Bool) : Parser :=
  { p with state := { p.state with codeSpaces := enabled } }

/-- Map an inline element to its ParseEvent (the match inside
`parse_inline_content`). -/
def inlineToEvent : InlineElement → ParseEvent
  | InlineElement.Text s => ParseEvent.Text s
  | InlineElement.Bold s => ParseEvent.Bold s
  | InlineElement.Italic s => ParseEvent.Italic s
  | InlineElement.BoldItalic s => ParseEvent.BoldItalic s
  | InlineElement.Underline s => ParseEvent.Underline s
  | InlineElement.Strikeout s => ParseEvent.Strikeout s
  | InlineElement.Code s => ParseEvent.InlineCode s
  | InlineElement.Link t u => ParseEvent.Link t u
  | InlineElement.Image a u => ParseEvent.Image a u
  | InlineElement.Footnote s => ParseEvent.Footnote s

/-- Parser::parse_inline_content: run the inline parser and append a
Newline event. The parser state is unchanged (the inline sub-parser
resets itself at the end of each call). -/
def parseInlineContent (p : Parser) (line : Str) : List ParseEvent :=
  (inlineParse p.inlineLinks p.inlineImages line).map inlineToEvent ++ [ParseEvent.Newline]

/-- Parser::strip_first_indent: record the first non-blank line's leading
whitespace character count once; afterwards, strip exactly that many
characters from lines whose own leading-whitespace character count
reaches it (`chars().skip(first_indent)` — character positions, never
bytes). -/
def stripFirstIndent (p : Parser) (line : Str) : Parser × Str :=
  let st := p.state
  let st := if st.firstIndent.isNone ∧ ¬(rustTrim line).isEmpty then
    { st with firstIndent := some (leadingWs line) } else st
  let out := match st.firstIndent with
    | some fi => if fi > 0 ∧ leadingWs line ≥ fi then line.drop fi else line
    | none => line
  ({ p with state := st }, out)

/-- Parser::parse_in_code_block. -/
def parseInCodeBlock (p : Parser) (line : Str) : Parser × List ParseEvent :=
  let fenceClose : Bool :=
    match p.codeFence, codeFenceEndCapture line with
    | some fence, some endFence =>
      (fence.take 1 = [btick] && endFence.take 1 = [btick]) ||
      (fence.take 1 = ['~'] && endFence.take 1 = ['~']) ||
      (fence = "<pre>".data && endFence = "</pre>".data)
    | _, _ => false
  if fenceClose then
    ({ p with state := p.state.exitCodeBlock, codeFence := none },
      [ParseEvent.CodeBlockEnd])
  else if p.state.inCode = some Code.Spaces ∧ leadingWs line < 4 ∧
      ¬(rustTrim line).isEmpty then
    let p := { p with state := p.state.exitCodeBlock }
    (p, ParseEvent.CodeBlockEnd :: parseInlineContent p line)
  else
    let codeLine := if p.state.inCode = some Code.Spaces then line.drop 4 else line
    (p, [ParseEvent.CodeBlockLine codeLine])

/-- Parser::parse_in_think_block. -/
def parseInThinkBlock (p : Parser) (line : Str) : Parser × List ParseEvent :=
  if rustTrim line = "</think>".data ∨ rustTrim line = "</think▷".data ∨
      rustTrim line = "◁/think▷".data then
    ({ p with state := p.state.exitBlock }, [ParseEvent.ThinkBlockEnd])
  else (p, [ParseEvent.ThinkBlockLine line])

/-- Parser::exit_list_context. -/
def exitListContext (p : Parser) : Parser × List ParseEvent :=
  ({ p with state := popAllLists p.state }, [ParseEvent.ListEnd])

/-- Parser::resolve_pending_list_close. -/
def resolvePendingListClose (p : Parser) : Parser × List ParseEvent :=
  if p.listPendingClose then
    let p := { p with listPendingClose := false }
    if p.state.inList then exitListContext p else (p, [])
  else (p, [])

/-- Parser::exit_block_contexts. -/
def exitBlockContexts (p : Parser) : Parser × List ParseEvent :=
  let (p, e1) :=
    if p.state.inList then exitListContext p else (p, [])
  let (p, e2) :=
    if p.tableState.isSome then
      ({ p with tableState := none, state := { p.state with inTable := none } },
        [ParseEvent.TableEnd])
    else (p, [])
  (p, e1 ++ e2)

/-- Parser::handle_empty_line. -/
def handleEmptyLine (p : Parser) : Parser × List ParseEvent :=
  if p.prevWasEmpty then (p, [])
  else
    let p := { p with prevWasEmpty := true,
                      state := { p.state with lastLineEmpty := true } }
    let (p, e1) :=
      if p.state.blockDepth > 0 ∧ p.state.blockType = some BlockType.Quote then
        ({ p with state := applyN ParseState.exitBlock p.state.blockDepth p.state },
          [ParseEvent.BlockquoteEnd])
      else (p, [])
    let p := if p.state.inList then { p with listPendingClose := true } else p
    let (p, e2) :=
      if p.tableState.isSome then
        ({ p with tableState := none, state := { p.state with inTable := none } },
          [ParseEvent.TableEnd])
      else (p, [])
    (p, e1 ++ e2 ++ [ParseEvent.EmptyLine])

/-- Parser::try_parse_code_fence. -/
def tryParseCodeFence (p : Parser) (line : Str) : Option (Parser × List ParseEvent) :=
  match codeFenceCapture line with
  | some (fence, langWord) =>
    let lang : Option Str := if langWord.isEmpty then none else some langWord
    let indent := leadingWs line
    let st := { p.state with codeIndent := indent }
    let st := st.enterCodeBlock Code.Backtick (some (lang.getD ("text".data)))
    some ({ p with state := st, codeFence := some fence },
      [ParseEvent.CodeBlockStart lang indent])
  | none => none

/-- Parser::try_parse_space_code. -/
def tryParseSpaceCode (p : Parser) (line : Str) (wasPrevEmpty : Bool) :
    Option (Parser × List ParseEvent) :=
  if ¬p.state.codeSpaces then none
  else if ¬wasPrevEmpty ∨ p.state.inList then none
  else if spaceCodeMatch line then
    let st := p.state.enterCodeBlock Code.Spaces (some ("text".data))
    some ({ p with state := st },
      [ParseEvent.CodeBlockStart (some ("text".data)) 4,
       ParseEvent.CodeBlockLine (line.drop 4)])
  else none

/-- Parser::try_parse_block: returns (matched, parser, events); the
blockquote-exit events on the non-matching path are part of the result. -/
def tryParseBlock (p : Parser) (line : Str) : Bool × Parser × List ParseEvent :=
  let fallback : Bool × Parser × List ParseEvent :=
    if p.state.blockDepth > 0 ∧ p.state.blockType = some BlockType.Quote then
      (false,
        { p with state := applyN ParseState.exitBlock p.state.blockDepth p.state },
        [ParseEvent.BlockquoteEnd])
    else (false, p, [])
  match blockCapture line with
  | none => fallback
  | some (marker, content) =>
    if containsSub marker ("think".data) then
      if marker.contains '/' then
        if p.state.blockType = some BlockType.Think then
          (true, { p with state := p.state.exitBlock }, [ParseEvent.ThinkBlockEnd])
        else (true, p, [])
      else
        let st := p.state.enterBlock BlockType.Think
        (true, { p with state := st },
          ParseEvent.ThinkBlockStart ::
            (if ¬(rustTrim content).isEmpty then [ParseEvent.ThinkBlockLine content] else []))
    else
      let depth := countChar '>' marker
      if depth > 0 then
        let (st, e1) :=
          if p.state.blockDepth ≠ depth then
            if depth > p.state.blockDepth then
              (applyN (fun s => s.enterBlock BlockType.Quote)
                 (depth - p.state.blockDepth) p.state,
               [ParseEvent.BlockquoteStart depth])
            else
              (applyN ParseState.exitBlock (p.state.blockDepth - depth) p.state, [])
          else (p.state, [])
        (true, { p with state := st }, e1 ++ [ParseEvent.BlockquoteLine content])
      else fallback

/-- Parser::try_parse_heading (no state change). -/
def tryParseHeading (line : Str) : Option (List ParseEvent) :=
  (headingCapture line).map
    (fun rc => [ParseEvent.Heading (min rc.1 6) rc.2])

/-- Parser::try_parse_hr. -/
def tryParseHr (line : Str) : Bool :=
  hrMatch (rustTrim line)

/-- Rust `inner.split('|')` with per-cell `trim`. -/
def splitCells (inner : Str) : List Str :=
  (inner.splitOn '|').map rustTrim

/-- Parser::try_parse_list_item. -/
def tryParseListItem (p : Parser) (line : Str) : Option (Parser × List ParseEvent) :=
  match listItemCapture line with
  | some (indStr, bulletStr, content) =>
    let indent := indStr.length
    let bullet := (ListBullet.parse bulletStr).getD ListBullet.Dash
    let st := { p.state with listIndentText := bulletStr.length }
    let listType := if bullet.isOrdered then ListType.Ordered else ListType.Bullet
    let st := popWhileGreater st indent
    let needPush : Bool := match st.listItemStack.head? with
      | some (i, _) => decide (indent > i)
      | none => true
    let st := if needPush then st.pushList indent listType else st
    let bulletFinal :=
      match bullet with
      | ListBullet.Ordered _ => ListBullet.Ordered ((st.nextListNumber.1).getD 1)
      | b => b
    let st :=
      match bullet with
      | ListBullet.Ordered _ => st.nextListNumber.2
      | _ => st
    some ({ p with state := st }, [ParseEvent.ListItem indent bulletFinal content])
  | none => none

/-- Parser::try_parse_table: returns (matched, parser, events); the
table-end events on the non-matching path are part of the result. -/
def tryParseTable (p : Parser) (line : Str) : Bool × Parser × List ParseEvent :=
  match tableRowCapture line with
  | some inner =>
    if tableSepMatch inner ∧ p.tableState = some TableState.Header then
      (true,
        { p with tableState := some TableState.Body,
                 state := { p.state with inTable := some Code.Body } },
        [ParseEvent.TableSeparator])
    else
      let cells := splitCells inner
      match p.tableState with
      | none =>
        (true,
          { p with tableState := some TableState.Header,
                   state := { p.state with inTable := some Code.Header } },
          [ParseEvent.TableHeader cells])
      | some TableState.Header => (true, p, [ParseEvent.TableHeader cells])
      | some TableState.Body => (true, p, [ParseEvent.TableRow cells])
  | none =>
    if p.tableState.isSome then
      (false,
        { p with tableState := none, state := { p.state with inTable := none } },
        [ParseEvent.TableEnd])
    else (false, p, [])

/-- Parser::parse_line: the per-call dispatch. Events appear in the order
the Rust code pushes them onto `self.events`. -/
def parseLineDispatch (p : Parser) (line : Str) (wasPrevEmpty : Bool) :
    Parser × List ParseEvent :=
  match tryParseSpaceCode p line wasPrevEmpty with
    | some (p, evs) =>
      let (p, e2) := resolvePendingListClose p
      (p, evs ++ e2)
    | none =>
      let (p, line) := stripFirstIndent p line
      match tryParseCodeFence p line with
      | some (p, evs) =>
        let (p, e2) := resolvePendingListClose p
        (p, evs ++ e2)
      | none =>
        let (blockMatched, p, evB) := tryParseBlock p line
        if blockMatched then
          let (p, e2) := resolvePendingListClose p
          (p, evB ++ e2)
        else
          match tryParseHeading line with
          | some evH =>
            let (p, e2) := resolvePendingListClose p
            (p, evB ++ evH ++ e2)
          | none =>
            if tryParseHr line then
              let (p, e2) := resolvePendingListClose p
              (p, evB ++ [ParseEvent.HorizontalRule] ++ e2)
            else
              match tryParseListItem p line with
              | some (p, evL) =>
                -- LineMatch::ListItem cancels the pending close
                ({ p with listPendingClose := false }, evB ++ evL)
              | none =>
                let (tableMatched, p, evT) := tryParseTable p line
                if tableMatched then
                  let (p, e2) := resolvePendingListClose p
                  (p, evB ++ evT ++ e2)
                else
                  let (p, e2) := resolvePendingListClose p
                  let (p, e3) := exitBlockContexts p
                  (p, evB ++ evT ++ e2 ++ e3 ++ parseInlineContent p line)

/-- Parser::parse_line top level: code block / think block / empty line,
then the non-empty dispatch chain (space-code, first-indent strip, fence,
blockquote-think, heading, hr, list item, table, inline fallthrough). -/
def parseLine (p : Parser) (line : Str) : Parser × List ParseEvent :=
  if p.state.isInCode then parseInCodeBlock p line
  else if p.state.blockType = some BlockType.Think then parseInThinkBlock p line
  else if (rustTrim line).isEmpty then handleEmptyLine p
  else
    parseLineDispatch
      { p with prevWasEmpty := false,
               state := { p.state with lastLineEmpty := false } }
      line p.prevWasEmpty

/-- Parser::finalize. -/
def finalizeCode (p : Parser) : Parser × List ParseEvent :=
  if p.state.isInCode then
    ({ p with state := p.state.exitCodeBlock, codeFence := none },
      [ParseEvent.CodeBlockEnd])
  else (p, [])

def finalizeThink (p : Parser) : Parser × List ParseEvent :=
  if p.state.blockType = some BlockType.Think then
    ({ p with state := p.state.exitBlock }, [ParseEvent.ThinkBlockEnd])
  else (p, [])

def finalizeQuote (p : Parser) : Parser × List ParseEvent :=
  if p.state.blockDepth > 0 then
    ({ p with state := applyN ParseState.exitBlock p.state.blockDepth p.state },
      [ParseEvent.BlockquoteEnd])
  else (p, [])

def finalizeList (p : Parser) : Parser × List ParseEvent :=
  let q := { p with listPendingClose := false }
  if q.state.inList then exitListContext q else (q, [])

def finalizeTable (p : Parser) : Parser × List ParseEvent :=
  if p.tableState.isSome then
    ({ p with tableState := none, state := { p.state with inTable := none } },
      [ParseEvent.TableEnd])
  else (p, [])

def finalize (p : Parser) : Parser × List ParseEvent :=
  let r1 := finalizeCode p
  let r2 := finalizeThink r1.1
  let r3 := finalizeQuote r2.1
  let r4 := finalizeList r3.1
  let r5 := finalizeTable r4.1
  (r5.1, r1.2 ++ r2.2 ++ r3.2 ++ r4.2 ++ r5.2)

/-- Parser::reset: a fresh ParseState and parser-local fields; the inline
sub-parser keeps its settings (its `reset` only clears format state). -/
def Parser.reset (p : Parser) : Parser :=
  { Parser.new with inlineLinks := p.inlineLinks, inlineImages := p.inlineImages }

/-- Feed a list of lines through parse_line, concatenating events. -/
def feedLines : Parser → List Str → Parser × List ParseEvent
  | p, [] => (p, [])
  | p, l :: ls =>
    let (p1, evs) := parseLine p l
    let (p2, rest) := feedLines p1 ls
    (p2, evs ++ rest)

/-- Run a fresh parser over the lines (no finalize). -/
def runLines (lines : List Str) : Parser × List ParseEvent :=
  feedLines Parser.new lines

/-- Parser::parse_document on pre-split lines: feed then finalize. -/
def runDocument (lines : List Str) : Parser × List ParseEvent :=
  let (p, evs) := runLines lines
  let (p2, e2) := finalize p
  (p2, evs ++ e2)

-- =============================================================================
-- Unicode display width (models the external unicode-width crate)
-- =============================================================================

/-- Modelled from the unicode-width crate (an external dependency, not
repository code): `UnicodeWidthChar::width` — `none` for control
characters, 0 for a zero-width set, 2 for the East Asian Wide/Fullwidth
ranges, 1 otherwise. The table here covers the ranges exercised in this
development (ASCII, CJK ideographs, fullwidth forms, the ellipsis); the
claims' bound proofs use only additivity, not particular values. -/
def charWidth? (c : Char) : Option Nat :=
  if c.toNat < 0x20 ∨ (0x7F ≤ c.toNat ∧ c.toNat ≤ 0x9F) then none
  else if (0x300 ≤ c.toNat ∧ c.toNat ≤ 0x36F) ∨
      (0x200B ≤ c.toNat ∧ c.toNat ≤ 0x200F) ∨
      (0xFE00 ≤ c.toNat ∧ c.toNat ≤ 0xFE0F) ∨ c.toNat = 0xFEFF then some 0
  else if (0x1100 ≤ c.toNat ∧ c.toNat ≤ 0x115F) ∨
      (0x2E80 ≤ c.toNat ∧ c.toNat ≤ 0x303E) ∨
      (0x3041 ≤ c.toNat ∧ c.toNat ≤ 0x33FF) ∨
      (0x3400 ≤ c.toNat ∧ c.toNat ≤ 0x4DBF) ∨
      (0x4E00 ≤ c.toNat ∧ c.toNat ≤ 0x9FFF) ∨
      (0xA000 ≤ c.toNat ∧ c.toNat ≤ 0xA4CF) ∨
      (0xAC00 ≤ c.toNat ∧ c.toNat ≤ 0xD7A3) ∨
      (0xF900 ≤ c.toNat ∧ c.toNat ≤ 0xFAFF) ∨
      (0xFE30 ≤ c.toNat ∧ c.toNat ≤ 0xFE4F) ∨
      (0xFF00 ≤ c.toNat ∧ c.toNat ≤ 0xFF60) ∨
      (0xFFE0 ≤ c.toNat ∧ c.toNat ≤ 0xFFE6) ∨
      (0x20000 ≤ c.toNat ∧ c.toNat ≤ 0x2FFFD) ∨
      (0x30000 ≤ c.toNat ∧ c.toNat ≤ 0x3FFFD) then some 2
  else some 1

/-- `UnicodeWidthStr::width`: per-character `width(c).unwrap_or(0)`
summed. -/
def strWidth (s : Str) : Nat :=
  (s.map (fun c => (charWidth? c).getD 0)).sum

-- =============================================================================
-- ANSI utilities (streamdown-ansi/src/utils.rs)
-- =============================================================================

/-- Length of the ANSIESCAPE match
`\x1b(?:\[[0-9;?]*[a-zA-Z]|\][0-9]*;;.*?\\|\))` at the head of the
string, if any (the lazy `.*?` stops at the first backslash; `.` does not
match a newline). -/
def matchAnsiEscape (l : Str) : Option Nat :=
  match l with
  | e :: '[' :: r2 =>
    if e = escCh then
      let ps := r2.takeWhile (fun c => isDigitC c || c = ';' || c = '?')
      match r2.drop ps.length with
      | c :: _ => if c.isAlpha then some (2 + ps.length + 1) else none
      | [] => none
    else none
  | e :: ']' :: r2 =>
    if e = escCh then
      let ds := r2.takeWhile isDigitC
      if (r2.drop ds.length).take 2 = [';', ';'] then
        let r3 := (r2.drop ds.length).drop 2
        let body := r3.takeWhile (fun c => c ≠ '\\' && c ≠ '\n')
        if (r3.drop body.length).take 1 = ['\\'] then
          some (2 + ds.length + 2 + body.length + 1)
        else none
      else none
    else none
  | e :: ')' :: _ => if e = escCh then some 2 else none
  | _ => none

/-- Scanner loop of `visible` (utils.rs):
`ANSIESCAPE_RE.replace_all(text, "")` over non-overlapping left-to-right
matches; a match never starts at a non-ESC character. Fuel = input
length; every iteration consumes at least one character. -/
def visScanGo : Nat → Str → Str
  | 0, _ => []
  | _ + 1, [] => []
  | fuel + 1, c :: r =>
    if c = escCh then
      match matchAnsiEscape (c :: r) with
      | some len => visScanGo fuel (r.drop (len - 1))
      | none => c :: visScanGo fuel r
    else c :: visScanGo fuel r

/-- `visible` (utils.rs). -/
def visScan (l : Str) : Str :=
  visScanGo l.length l

/-- `visible_length` (utils.rs): display width of the escape-stripped
text. -/
def visibleLength (s : Str) : Nat :=
  strWidth (visScan s)

/-- Length-and-text of the ESCAPE match `\x1b\[[0-9;]*[mK]` at the head
of the string, if any. -/
def matchSgr (l : Str) : Option (Nat × Str) :=
  match l with
  | e :: '[' :: r2 =>
    if e = escCh then
      let ps := r2.takeWhile (fun c => isDigitC c || c = ';')
      match (r2.drop ps.length).take 1 with
      | [c] =>
        if c = 'm' ∨ c = 'K' then
          some (2 + ps.length + 1, e :: '[' :: (ps ++ [c]))
        else none
      | _ => none
    else none
  | _ => none

/-- Scanner loop of `extract_ansi_codes` (utils.rs): all ESCAPE matches,
in order; fuel = input length. -/
def extractAnsiCodesGo : Nat → Str → List Str
  | 0, _ => []
  | _ + 1, [] => []
  | fuel + 1, c :: r =>
    if c = escCh then
      match matchSgr (c :: r) with
      | some (len, s) => s :: extractAnsiCodesGo fuel (r.drop (len - 1))
      | none => extractAnsiCodesGo fuel r
    else extractAnsiCodesGo fuel r

/-- `extract_ansi_codes` (utils.rs). -/
def extractAnsiCodes (l : Str) : List Str :=
  extractAnsiCodesGo l.length l

/-- Rust `trim_start_matches("\x1b[")`: strip every repetition of the
two-character prefix. -/
def stripEscBr : Str → Str
  | e :: '[' :: r => if e = escCh then stripEscBr r else e :: '[' :: r
  | other => other

/-- Rust `trim_end_matches(c)`: strip every trailing occurrence. -/
def trimEndMatchesC (c : Char) (s : Str) : Str :=
  (s.reverse.dropWhile (fun d => d = c)).reverse

/-- Rust `u32::from_str` (for `parse::<u32>().ok()` in filter_map). -/
def parseU32 (s : Str) : Option Nat :=
  let body := match s with
    | '+' :: r => r
    | other => other
  if body.isEmpty then none
  else if !body.all isDigitC then none
  else if digitsToNat body < 2 ^ 32 then some (digitsToNat body) else none

/-- `parse_sgr_params` (utils.rs): strip the `\x1b[` prefix repetitions,
all trailing `m`s, then all trailing `K`s; an empty remainder is a reset
`[0]`; otherwise split on `;` and keep the numeric fields. -/
def parseSgrParams (code : Str) : List Nat :=
  let inner := trimEndMatchesC 'K' (trimEndMatchesC 'm' (stripEscBr code))
  if inner.isEmpty then [0]
  else (inner.splitOn ';').filterMap parseU32

/-- Tracked SGR state of `ansi_collapse`. -/
structure SgrState where
  bold : Bool := false
  italic : Bool := false
  underline : Bool := false
  strikeout : Bool := false
  dim : Bool := false
  fg : Option Str := none
  bg : Option Str := none
deriving Repr, DecidableEq

/-- Decimal digits of a number (Rust `{}` formatting of an unsigned). -/
def natRepr (n : Nat) : Str :=
  Nat.toDigits 10 n

/-- Parameter loop of `ansi_collapse`: the `38;2;r;g;b` / `48;2;r;g;b`
forms need four following parameters and skip them. Fuel = parameter
count; every iteration consumes at least one parameter. -/
def collapseParamsGo (st : SgrState) : Nat → List Nat → SgrState
  | 0, _ => st
  | _ + 1, [] => st
  | fuel + 1, p :: rest =>
    if p = 0 then collapseParamsGo {} fuel rest
    else if p = 1 then collapseParamsGo { st with bold := true } fuel rest
    else if p = 2 then collapseParamsGo { st with dim := true } fuel rest
    else if p = 3 then collapseParamsGo { st with italic := true } fuel rest
    else if p = 4 then collapseParamsGo { st with underline := true } fuel rest
    else if p = 9 then collapseParamsGo { st with strikeout := true } fuel rest
    else if p = 22 then collapseParamsGo { st with bold := false, dim := false } fuel rest
    else if p = 23 then collapseParamsGo { st with italic := false } fuel rest
    else if p = 24 then collapseParamsGo { st with underline := false } fuel rest
    else if p = 29 then collapseParamsGo { st with strikeout := false } fuel rest
    else if p = 38 then
      -- the Rust guard `i + 4 < params.len() && params[i+1] == 2`
      if rest.take 1 = [2] ∧ 4 ≤ rest.length then
        collapseParamsGo
          { st with fg := some (escCh :: '[' :: ("38;2;".data ++
              natRepr (rest.getD 1 0) ++ [';'] ++ natRepr (rest.getD 2 0) ++ [';'] ++
              natRepr (rest.getD 3 0) ++ ['m'])) } fuel (rest.drop 4)
      else collapseParamsGo st fuel rest
    else if p = 39 then collapseParamsGo { st with fg := none } fuel rest
    else if p = 48 then
      if rest.take 1 = [2] ∧ 4 ≤ rest.length then
        collapseParamsGo
          { st with bg := some (escCh :: '[' :: ("48;2;".data ++
              natRepr (rest.getD 1 0) ++ [';'] ++ natRepr (rest.getD 2 0) ++ [';'] ++
              natRepr (rest.getD 3 0) ++ ['m'])) } fuel (rest.drop 4)
      else collapseParamsGo st fuel rest
    else if p = 49 then collapseParamsGo { st with bg := none } fuel rest
    else collapseParamsGo st fuel rest

/-- Parameter loop entry point. -/
def collapseParams (st : SgrState) (ps : List Nat) : SgrState :=
  collapseParamsGo st ps.length ps

/-- Join with `;` (Rust `sgr_parts.join(";")`). -/
def joinSemi : List Str → Str
  | [] => []
  | [s] => s
  | s :: rest => s ++ ';' :: joinSemi rest

/-- `ansi_collapse` (utils.rs): fold the codes into tracked state, then
rebuild a minimal code list. The unused `inp` parameter of the source is
kept. -/
def ansiCollapse (codeList : List Str) (_inp : Str) : List Str :=
  let st := codeList.foldl (fun s code => collapseParams s (parseSgrParams code)) {}
  let parts : List Str :=
    (if st.bold then [['1']] else []) ++
    (if st.dim then [['2']] else []) ++
    (if st.italic then [['3']] else []) ++
    (if st.underline then [['4']] else []) ++
    (if st.strikeout then [['9']] else [])
  (if !parts.isEmpty then [escCh :: '[' :: (joinSemi parts ++ ['m'])] else []) ++
    (match st.fg with
     | some f => [f]
     | none => []) ++
    (match st.bg with
     | some b => [b]
     | none => [])

-- =============================================================================
-- Text wrapping (streamdown-render/src/text.rs)
-- =============================================================================

/-- `split_text` (text.rs): split on whitespace keeping ANSI escapes glued
to their adjacent run; an unterminated escape buffer is appended to the
final word. -/
def splitTextGo (current escapeBuf : Str) (inEscape : Bool) : Str → List Str
  | [] =>
    let current := if !escapeBuf.isEmpty then current ++ escapeBuf else current
    if current.isEmpty then [] else [current]
  | ch :: rest =>
    if inEscape then
      let eb := escapeBuf ++ [ch]
      if ch = 'm' then splitTextGo (current ++ eb) [] false rest
      else splitTextGo current eb true rest
    else if ch = escCh then splitTextGo current (escapeBuf ++ [ch]) true rest
    else if isWs ch then
      if current.isEmpty then splitTextGo current escapeBuf false rest
      else current :: splitTextGo [] escapeBuf false rest
    else splitTextGo (current ++ [ch]) escapeBuf false rest

/-- Words of `split_text`. -/
def splitText (text : Str) : List Str :=
  splitTextGo [] [] false text

/-- `truncate_to_visible` (text.rs): copy characters (passing escape
sequences through) until the display-width counter reaches the limit. -/
def truncGo (count : Nat) (inEscape : Bool) (maxV : Nat) : Str → Str
  | [] => []
  | ch :: rest =>
    if inEscape then ch :: truncGo count (ch ≠ 'm') maxV rest
    else if ch = escCh then ch :: truncGo count true maxV rest
    else if count ≥ maxV then []
    else ch :: truncGo (count + ((charWidth? ch).getD 1)) inEscape maxV rest

/-- `truncate_to_visible` entry point. -/
def truncateToVisible (text : Str) (maxVisible : Nat) : Str :=
  truncGo 0 false maxVisible text

/-- The `force_truncate` while-loop of `text_wrap`, with fuel: one
iteration recomputes the visible text, truncates to its BYTE length minus
two and appends an ellipsis. The returned flag is `false` when the fuel
ran out with the loop guard still true (the loop would still be
running). -/
def truncLoop (width : Nat) : Nat → Str → Bool → Str × Bool × Bool
  | 0, l, tr =>
    if visibleLength l > width ∧ utf8Len l > 1 then (l, tr, false) else (l, tr, true)
  | n + 1, l, tr =>
    if visibleLength l > width ∧ utf8Len l > 1 then
      let vp := visScan l
      if utf8Len vp > 1 then
        truncLoop width n (truncateToVisible l (utf8Len vp - 2) ++ ['…']) true
      else (l, tr, true)
    else (l, tr, true)

/-- Running state of the `text_wrap` word loop; `ok` is the model's
record that no truncation loop exhausted its fuel. -/
structure WrapSt where
  lines : List Str
  currentLine : Str
  currentStyle : List Str
  truncated : Bool
  prevWord : Str
  ok : Bool
deriving Repr, DecidableEq

/-- The "word doesn't fit, finalize current line" block of `text_wrap`
(truncate when forced, pad to width, drop all-whitespace lines). -/
def finalizeLine (fuel width : Nat) (firstPre nextPre : Str) (forceTrunc : Bool)
    (resetter : Str) (ws : WrapSt) : WrapSt :=
  let pre := if ws.lines.isEmpty then firstPre else nextPre
  let lc := pre ++ ws.currentLine
  let (lc, tr, done) :=
    if forceTrunc then truncLoop width fuel lc ws.truncated
    else (lc, ws.truncated, true)
  let padding := width - visibleLength lc
  let lc := lc ++ resetter ++ List.replicate padding ' '
  let lines :=
    if ¬(rustTrim (visScan lc)).isEmpty then ws.lines ++ [lc] else ws.lines
  { ws with lines := lines, truncated := tr, ok := ws.ok && done }

/-- One iteration of the `text_wrap` word loop. -/
def wordStep (fuel width indent : Nat) (firstPre nextPre : Str)
    (forceTrunc : Bool) (resetter : Str) (ws : WrapSt) (word : Str) : WrapSt :=
  let codes := extractAnsiCodes word
  let ws :=
    match codes.head? with
    | some c0 =>
      if c0.isPrefixOf word then { ws with currentStyle := ws.currentStyle ++ [c0] }
      else ws
    | none => ws
  let wordVis := visibleLength word
  let lineVis := visibleLength ws.currentLine
  let spaceNeeded := if ws.currentLine.isEmpty ∨ wordVis = 0 then 0 else 1
  let spaceNeeded :=
    if cjkCount word > 0 ∧ cjkCount ws.prevWord > 0 then 0 else spaceNeeded
  let ws :=
    if wordVis > 0 ∧ lineVis + wordVis + spaceNeeded ≤ width then
      let cur :=
        if spaceNeeded > 0 ∧ ¬ws.currentLine.isEmpty then ws.currentLine ++ [' ']
        else ws.currentLine
      { ws with currentLine := cur ++ word }
    else if wordVis > 0 then
      let ws :=
        if ¬ws.currentLine.isEmpty then
          finalizeLine fuel width firstPre nextPre forceTrunc resetter ws
        else ws
      let styleStr := ws.currentStyle.foldr (fun a b => a ++ b) []
      { ws with currentLine := List.replicate indent ' ' ++ styleStr ++ word }
    else ws
  let skipN := if ((codes.head?).getD []).isPrefixOf word then 1 else 0
  let ws := { ws with currentStyle := ansiCollapse (ws.currentStyle ++ codes.drop skipN) [] }
  { ws with prevWord := word }

/-- WrappedText of `text.rs`. -/
structure WrappedText where
  lines : List Str
  truncated : Bool
deriving Repr, DecidableEq

/-- `text_wrap` (text.rs). The extra `fuel` argument bounds only the
source's unbounded `force_truncate` loops; the second component of the
result is `true` exactly when no such loop was cut short by the fuel. -/
def textWrap (fuel : Nat) (text : Str) (width indent : Nat)
    (firstPre nextPre : Str) (forceTrunc preserveFormat : Bool) :
    WrappedText × Bool :=
  if width = 0 then ({ lines := [], truncated := false }, true)
  else
    let words := splitText text
    if words.isEmpty then ({ lines := [], truncated := false }, true)
    else
      let resetter : Str := if preserveFormat then [] else escCh :: "[0m".data
      let ws0 : WrapSt :=
        { lines := [], currentLine := [], currentStyle := [],
          truncated := false, prevWord := [], ok := true }
      let ws := (words ++ [[]]).foldl
        (wordStep fuel width indent firstPre nextPre forceTrunc resetter) ws0
      if ¬ws.currentLine.isEmpty ∧ ¬(rustTrim (visScan ws.currentLine)).isEmpty then
        let pre := if ws.lines.isEmpty then firstPre else nextPre
        let lc := pre ++ ws.currentLine
        let (lc, tr, done) :=
          if forceTrunc then truncLoop width fuel lc ws.truncated
          else (lc, ws.truncated, true)
        ({ lines := ws.lines ++ [lc ++ resetter], truncated := tr }, ws.ok && done)
      else ({ lines := ws.lines, truncated := ws.truncated }, ws.ok)

-- =============================================================================
-- Predicates used by the claims
-- =============================================================================

/-- States a `Parser` can reach through the public mutating surface:
`new`, then any interleaving of `parse_line`, `finalize` and `reset`. -/
inductive ReachableParser : Parser → Prop where
  | new : ReachableParser Parser.new
  | parse (p : Parser) (line : Str) :
      ReachableParser p → ReachableParser (parseLine p line).1
  | fin (p : Parser) : ReachableParser p → ReachableParser (finalize p).1
  | reset (p : Parser) : ReachableParser p → ReachableParser p.reset

/-- The list-state invariant of claim C9: `in_list` mirrors stack
non-emptiness, and one ordered counter exists per Ordered stack entry. -/
def listInv (st : ParseState) : Prop :=
  st.inList = !st.listItemStack.isEmpty ∧
  st.orderedListNumbers.length =
    (st.listItemStack.filter (fun e => e.2 = ListType.Ordered)).length

/-- Fold tracking whether a `TableSeparator` is open: set by
TableSeparator, cleared by TableEnd, untouched by anything else. -/
def sepFoldStep (b : Bool) (e : ParseEvent) : Bool :=
  match e with
  | ParseEvent.TableSeparator => true
  | ParseEvent.TableEnd => false
  | _ => b

/-- Separator-open state after an event prefix. -/
def sepFold (b : Bool) (evs : List ParseEvent) : Bool :=
  evs.foldl sepFoldStep b

/-- Acceptance automaton of claim C10: every `TableRow` must occur while
a `TableSeparator` is open (no `TableEnd` in between). -/
def rowsCovered (b : Bool) : List ParseEvent → Bool
  | [] => true
  | e :: rest =>
    match e with
    | ParseEvent.TableRow _ => b && rowsCovered b rest
    | _ => rowsCovered (sepFoldStep b e) rest

/-- The widest word of the input, by visible display width. -/
def maxWordWidth (text : Str) : Nat :=
  ((splitText text).map strWidth).foldr max 0

/-- The line contents produced by the diverging truncation loop on an
all-CJK input at width 1: the original two ideographs followed by the
ellipses appended so far. -/
def mkCjk (k : Nat) : Str := '中' :: '中' :: List.replicate k '…'

/-- Events that touch the claim-C10 table automaton: header, row,
separator and end. Everything else leaves `sepFold` and `rowsCovered`
unchanged. -/
def tableNeutral (e : ParseEvent) : Bool :=
  match e with
  | ParseEvent.TableHeader _ => false
  | ParseEvent.TableRow _ => false
  | ParseEvent.TableSeparator => false
  | ParseEvent.TableEnd => false
  | _ => true

/-- Per-call contract of claim C10: if the separator-open flag agrees
with `table_state == Body` on entry, every `TableRow` in the emitted
batch is covered by an open separator, and the flag agrees again on
exit. -/
def tableContract (p : Parser) (r : Parser × List ParseEvent) : Prop :=
  ∀ b : Bool, b = decide (p.tableState = some TableState.Body) →
    rowsCovered b r.2 = true ∧
    sepFold b r.2 = decide (r.1.tableState = some TableState.Body)

/-- A string with no ESC character: the ANSI scanners pass it through. -/
def escFree (l : Str) : Prop :=
  ∀ c ∈ l, c ≠ escCh

/-- The two resetters `text_wrap` can append behave as no-ops for
`visScan` between escape-free strings. -/
def resetterOk (resetter : Str) : Prop :=
  ∀ xs ys : Str, escFree xs → escFree ys →
    visScan (xs ++ resetter ++ ys) = xs ++ ys

/-- Invariant of the `text_wrap` word loop for escape-free input and
`force_truncate = false`: empty style stack, escape-free current line of
display width at most `bound`, and finished lines of visible width at
most `maxPre + bound`. -/
def wrapInv (maxPre bound : Nat) (ws : WrapSt) : Prop :=
  ws.currentStyle = [] ∧
  escFree ws.currentLine ∧
  strWidth ws.currentLine ≤ bound ∧
  (∀ l ∈ ws.lines, visibleLength l ≤ maxPre + bound)

-- =============================================================================
-- Theorems
-- =============================================================================

theorem strWidth_append (a b : Str) : strWidth (a ++ b) = strWidth a + strWidth b := by
  simp [strWidth]

theorem strWidth_cons (c : Char) (l : Str) :
    strWidth (c :: l) = (charWidth? c).getD 0 + strWidth l := by
  simp [strWidth]

theorem utf8Len_append (a b : Str) : utf8Len (a ++ b) = utf8Len a + utf8Len b := by
  simp [utf8Len]

theorem utf8Len_cons (c : Char) (l : Str) : utf8Len (c :: l) = c.utf8Size + utf8Len l := by
  simp [utf8Len]

theorem strWidth_rep (k : Nat) : strWidth (List.replicate k '…') = k := by
  induction k with
  | zero => rfl
  | succ n ih =>
    rw [List.replicate_succ, strWidth_cons, ih]
    have : (charWidth? '…').getD 0 = 1 := by decide
    omega

theorem utf8Len_rep (k : Nat) : utf8Len (List.replicate k '…') = 3 * k := by
  induction k with
  | zero => rfl
  | succ n ih =>
    rw [List.replicate_succ, utf8Len_cons, ih]
    have : '…'.utf8Size = 3 := by decide
    omega

theorem mkCjk_no_esc (k : Nat) : ∀ c ∈ mkCjk k, c ≠ escCh := by
  intro c hc
  simp only [mkCjk, List.mem_cons, List.mem_replicate] at hc
  rcases hc with rfl | rfl | ⟨_, rfl⟩ <;> decide

theorem visScanGo_no_esc (fuel : Nat) (l : Str) (hf : l.length ≤ fuel)
    (h : ∀ c ∈ l, c ≠ escCh) : visScanGo fuel l = l := by
  induction fuel generalizing l with
  | zero =>
    have : l = [] := List.length_eq_zero.mp (Nat.le_zero.mp hf)
    simp [this, visScanGo]
  | succ n ih =>
    cases l with
    | nil => simp [visScanGo]
    | cons c r =>
      have hc : c ≠ escCh := h c (List.mem_cons_self c r)
      simp only [visScanGo, if_neg hc]
      rw [ih r (by simpa using Nat.le_of_succ_le_succ (by simpa using hf))
        (fun d hd => h d (List.mem_cons_of_mem c hd))]

theorem visScan_no_esc (l : Str) (h : ∀ c ∈ l, c ≠ escCh) : visScan l = l :=
  visScanGo_no_esc l.length l le_rfl h

theorem visScan_mkCjk (k : Nat) : visScan (mkCjk k) = mkCjk k :=
  visScan_no_esc _ (mkCjk_no_esc k)

theorem strWidth_mkCjk (k : Nat) : strWidth (mkCjk k) = 4 + k := by
  simp only [mkCjk, strWidth_cons, strWidth_rep]
  have : (charWidth? '中').getD 0 = 2 := by decide
  omega

theorem utf8Len_mkCjk (k : Nat) : utf8Len (mkCjk k) = 6 + 3 * k := by
  simp only [mkCjk, utf8Len_cons, utf8Len_rep]
  have : '中'.utf8Size = 3 := by decide
  omega

theorem visibleLength_mkCjk (k : Nat) : visibleLength (mkCjk k) = 4 + k := by
  rw [visibleLength, visScan_mkCjk, strWidth_mkCjk]

theorem truncGo_rep (k : Nat) : ∀ cnt maxV : Nat, cnt + k ≤ maxV →
    truncGo cnt false maxV (List.replicate k '…') = List.replicate k '…' := by
  induction k with
  | zero => intro cnt maxV _; rfl
  | succ n ih =>
    intro cnt maxV h
    rw [List.replicate_succ]
    simp only [truncGo]
    rw [if_neg (by decide), if_neg (by decide), if_neg (by omega)]
    have hw : (charWidth? '…').getD 1 = 1 := by decide
    rw [hw, ih (cnt + 1) maxV (by omega)]

theorem truncCjk (k : Nat) : truncateToVisible (mkCjk k) (4 + 3 * k) = mkCjk k := by
  have h2 : (charWidth? '中').getD 1 = 2 := by decide
  simp [truncateToVisible, mkCjk, truncGo, h2, show ¬(0 ≥ 4 + 3 * k) by omega,
    show ¬(0 + 2 ≥ 4 + 3 * k) by omega, show ¬('中' = escCh) by decide]
  rw [truncGo_rep k 4 (4 + 3 * k) (by omega)]

theorem truncLoop_mkCjk (n : Nat) : ∀ k tr, (truncLoop 1 n (mkCjk k) tr).2.2 = false := by
  induction n with
  | zero =>
    intro k tr
    have hcond : visibleLength (mkCjk k) > 1 ∧ utf8Len (mkCjk k) > 1 := by
      rw [visibleLength_mkCjk, utf8Len_mkCjk]; omega
    simp only [truncLoop]
    rw [if_pos hcond]
  | succ n ih =>
    intro k tr
    have hcond : visibleLength (mkCjk k) > 1 ∧ utf8Len (mkCjk k) > 1 := by
      rw [visibleLength_mkCjk, utf8Len_mkCjk]; omega
    have hvp : utf8Len (visScan (mkCjk k)) > 1 := by
      rw [visScan_mkCjk, utf8Len_mkCjk]; omega
    simp only [truncLoop]
    rw [if_pos hcond, if_pos hvp]
    have harg : truncateToVisible (mkCjk k) (utf8Len (visScan (mkCjk k)) - 2) ++ ['…'] =
        mkCjk (k + 1) := by
      rw [visScan_mkCjk, utf8Len_mkCjk]
      have h62 : 6 + 3 * k - 2 = 4 + 3 * k := by omega
      rw [h62, truncCjk]
      simp [mkCjk, List.replicate_succ']
    rw [harg]
    exact ih (k + 1) true

/-- Claim C2 (code bug): the `force_truncate` loop of `text_wrap` does
NOT terminate on an all-CJK line at width 1. One iteration truncates to
the visible text's BYTE length minus two — for CJK that target exceeds
the line's display width, so nothing is removed and an ellipsis is
appended, growing the line forever. Modelled with fuel: for EVERY fuel
bound, `text_wrap("中中", width 1, force_truncate)` still reports its
truncation loop unfinished. -/
theorem claim2_truncation_loop_diverges (fuel : Nat) :
    (textWrap fuel ("中中".data) 1 0 [] [] true false).2 = false := by
  have e1 : extractAnsiCodes ['中', '中'] = [] := by decide
  have e2 : extractAnsiCodes ([] : Str) = [] := by decide
  have e3 : visibleLength ['中', '中'] = 4 := by decide
  have e4 : visibleLength ([] : Str) = 0 := by decide
  have e5 : ansiCollapse [] [] = [] := by decide
  have hsplit : splitText ("中中".data) = [['中', '中']] := by decide
  have hs1 : wordStep fuel 1 0 [] [] true [escCh, '[', '0', 'm']
      { lines := [], currentLine := [], currentStyle := [], truncated := false,
        prevWord := [], ok := true } ['中', '中'] =
      { lines := [], currentLine := ['中', '中'], currentStyle := [], truncated := false,
        prevWord := ['中', '中'], ok := true } := by
    simp [wordStep, e1, e2, e3, e4, e5, List.isPrefixOf]
  have hs2 : wordStep fuel 1 0 [] [] true [escCh, '[', '0', 'm']
      { lines := [], currentLine := ['中', '中'], currentStyle := [], truncated := false,
        prevWord := ['中', '中'], ok := true } [] =
      { lines := [], currentLine := ['中', '中'], currentStyle := [], truncated := false,
        prevWord := [], ok := true } := by
    simp [wordStep, e1, e2, e3, e4, e5, List.isPrefixOf]
  rcases he : truncLoop 1 fuel ['中', '中'] false with ⟨l2, tr2, done2⟩
  have hdone : done2 = false := by
    have h0 := truncLoop_mkCjk fuel 0 false
    rw [show mkCjk 0 = ['中', '中'] from rfl] at h0
    rw [he] at h0
    exact h0
  simp [textWrap, hsplit, hs1, hs2, he, hdone,
    show rustTrim (visScan ['中', '中']) ≠ [] by decide]

theorem inlineToEvent_ne_cbl (el : InlineElement) (s : Str) :
    inlineToEvent el ≠ ParseEvent.CodeBlockLine s := by
  cases el <;> simp [inlineToEvent]

/-- Claim C1: the indent computations of `parse_line` are character
based, so no slicing can fall inside a multi-byte character: (1) the
first-indent strip always returns a character-aligned suffix of the line;
(2) every `CodeBlockLine` payload of `parse_in_code_block` is the line
itself or its 4-character suffix; (3) the adversarial multi-byte runs of
the spec evaluate to ordinary events (the embedding is a total function,
so every line sequence has a defined, panic-free result). -/
theorem claim1_char_safe_strips :
    (∀ (p : Parser) (line : Str), ∃ k, (stripFirstIndent p line).2 = line.drop k) ∧
    (∀ (p : Parser) (line : Str) (e : ParseEvent) (s : Str),
      e ∈ (parseInCodeBlock p line).2 → e = ParseEvent.CodeBlockLine s →
      s = line ∨ s = line.drop 4) ∧
    ((runDocument ["  # Hello".data, "　World".data]).2 =
      [ParseEvent.Heading 1 ("Hello".data), ParseEvent.Text ("　World".data),
       ParseEvent.Newline]) ∧
    ((feedLines (Parser.new.setCodeSpaces true)
        ["".data, "    first".data, "　　second".data]).2 =
      [ParseEvent.EmptyLine, ParseEvent.CodeBlockStart (some ("text".data)) 4,
       ParseEvent.CodeBlockLine ("first".data), ParseEvent.CodeBlockEnd,
       ParseEvent.Text ("　　second".data), ParseEvent.Newline]) := by
  refine ⟨?_, ?_, by decide, by decide⟩
  · intro p line
    simp only [stripFirstIndent]
    split
    · split
      · exact ⟨_, rfl⟩
      · exact ⟨0, rfl⟩
    · exact ⟨0, rfl⟩
  · intro p line e s he heq
    subst heq
    simp only [parseInCodeBlock] at he
    split at he
    · simp at he
    · split at he
      · simp only [List.mem_cons] at he
        rcases he with h | h
        · exact absurd h.symm (by simp)
        · exfalso
          simp only [parseInlineContent, List.mem_append, List.mem_map,
            List.mem_singleton] at h
          rcases h with ⟨el, _, hel⟩ | h
          · exact inlineToEvent_ne_cbl el s hel
          · exact absurd h (by simp)
      · by_cases hs : p.state.inCode = some Code.Spaces
        · simp [hs] at he
          right; exact he
        · simp [hs] at he
          left; exact he

/-- Witness for the hypotheses of claim C1's theorem: the membership
implications applied at a concrete code-block line. -/
theorem claim1_char_safe_strips_witness :
    (("  # Hello".data).drop 0 = "  # Hello".data) ∧
    ("x".data = "    x".data ∨ "x".data = ("    x".data).drop 4) := by
  constructor
  · exact rfl
  · exact claim1_char_safe_strips.2.1
      (feedLines (Parser.new.setCodeSpaces true) ["".data, "    x".data]).1
      ("    x".data) (ParseEvent.CodeBlockLine ("x".data)) ("x".data)
      (by decide) rfl

/-- Claim C3, counterexample: after a complete table (header, separator,
body row), `parse_line("# Next")` returns ONLY the Heading event — the
claimed `TableEnd` is not emitted, because the heading matcher runs
before the table matcher and the table-end path is never reached. -/
theorem claim3_counterexample :
    (parseLine (feedLines Parser.new
        ["| A | B |".data, "|---|---|".data, "| 1 | 2 |".data]).1 ("# Next".data)).2 =
      [ParseEvent.Heading 1 ("Next".data)] ∧
    (parseLine (feedLines Parser.new
        ["| A | B |".data, "|---|---|".data, "| 1 | 2 |".data]).1 ("# Next".data)).2 ≠
      [ParseEvent.TableEnd, ParseEvent.Heading 1 ("Next".data)] := by
  constructor
  · decide
  · decide

/-- Claim C3, amended: a `"# Next"` line after a table body row emits only
`Heading{1,"Next"}` and leaves the table open (still in Body phase); the
table is ended in the same call only by a line that reaches the table
matcher and fails it — equivalently, a line matching no earlier
construct, such as plain text, which emits `TableEnd` before its inline
events — or by a blank line or `finalize`. -/
theorem claim3_heading_leaves_table_open :
    ((parseLine (feedLines Parser.new
        ["| A | B |".data, "|---|---|".data, "| 1 | 2 |".data]).1 ("# Next".data)).1.tableState =
      some TableState.Body) ∧
    ((parseLine (parseLine (feedLines Parser.new
        ["| A | B |".data, "|---|---|".data, "| 1 | 2 |".data]).1 ("# Next".data)).1
        ("x".data)).2 =
      [ParseEvent.TableEnd, ParseEvent.Text ("x".data), ParseEvent.Newline]) ∧
    (∀ (p : Parser) (line : Str), tableRowCapture line = none →
      tryParseTable p line =
        if p.tableState.isSome then
          (false, { p with tableState := none, state := { p.state with inTable := none } },
            [ParseEvent.TableEnd])
        else (false, p, [])) := by
  refine ⟨by decide, by decide, ?_⟩
  intro p line h
  simp [tryParseTable, h]

/-- Witness for the hypothesis of claim C3's amended theorem, at a
concrete non-row line and parser. -/
theorem claim3_heading_leaves_table_open_witness :
    tryParseTable Parser.new ("plain".data) = (false, Parser.new, []) := by
  have h := claim3_heading_leaves_table_open.2.2 Parser.new ("plain".data) (by decide)
  simpa using h

/-- Claim C4: inside a space-indented code block, a dedented non-blank
line is NOT re-dispatched through the remaining block matchers: the code
emits `CodeBlockEnd` and parses the line as plain inline content, so a
dedented `"# Title"` yields `Text("# Title")` and never a Heading event
(the source comment admits the re-parse is left undone). -/
theorem claim4_dedent_not_redispatched :
    ((parseLine (feedLines (Parser.new.setCodeSpaces true)
        ["".data, "    x".data]).1 ("# Title".data)).2 =
      [ParseEvent.CodeBlockEnd, ParseEvent.Text ("# Title".data), ParseEvent.Newline]) ∧
    ((parseLine (feedLines (Parser.new.setCodeSpaces true)
        ["".data, "    x".data]).1 ("# Title".data)).2.all
      (fun e => match e with
        | ParseEvent.Heading _ _ => false
        | _ => true) = true) := by
  constructor
  · decide
  · decide

/-- Claim C6: ordered-list numbers come from the per-level counter, not
the input numerals: `"5. A"` then `"9. B"` yield `Ordered(1)` and
`Ordered(2)`; and in general two list-item lines that differ only in the
value of their (same-length) ordered numerals produce identical results
from `try_parse_list_item`. -/
theorem claim6_counter_driven_numbering :
    ((runLines ["5. A".data, "9. B".data]).2 =
      [ParseEvent.ListItem 0 (ListBullet.Ordered 1) ("A".data),
       ParseEvent.ListItem 0 (ListBullet.Ordered 2) ("B".data)]) ∧
    (∀ (p : Parser) (l1 l2 ind b1 b2 c : Str) (n m : Nat),
      listItemCapture l1 = some (ind, b1, c) →
      listItemCapture l2 = some (ind, b2, c) →
      ListBullet.parse b1 = some (ListBullet.Ordered n) →
      ListBullet.parse b2 = some (ListBullet.Ordered m) →
      b1.length = b2.length →
      tryParseListItem p l1 = tryParseListItem p l2) := by
  refine ⟨by decide, ?_⟩
  intro p l1 l2 ind b1 b2 c n m h1 h2 h3 h4 h5
  simp [tryParseListItem, h1, h2, h3, h4, h5, ListBullet.isOrdered]

/-- Witness for the hypotheses of claim C6's theorem: `"5. A"` and
`"9. B"` (at the same indent and content) produce identical
`try_parse_list_item` results on a fresh parser. -/
theorem claim6_counter_driven_numbering_witness :
    tryParseListItem Parser.new ("5. x".data) = tryParseListItem Parser.new ("9. x".data) := by
  exact claim6_counter_driven_numbering.2 Parser.new ("5. x".data) ("9. x".data)
    [] ("5.".data) ("9.".data) ("x".data) 5 9
    (by decide) (by decide) (by decide) (by decide) (by decide)

/-- Claim C7, counterexample: after a first line with two ASCII spaces of
indent, the fullwidth-space line `"　World"` has only ONE leading
whitespace character, which is below `first_indent = 2`, so the code
strips NOTHING — not "exactly 1 character" as claimed: the emitted text
keeps its fullwidth space. -/
theorem claim7_counterexample :
    ((parseLine (parseLine Parser.new ("  # Hello".data)).1 ("　World".data)).2 =
      [ParseEvent.Text ("　World".data), ParseEvent.Newline]) ∧
    ((parseLine (parseLine Parser.new ("  # Hello".data)).1 ("　World".data)).2 ≠
      [ParseEvent.Text ("World".data), ParseEvent.Newline]) := by
  constructor
  · decide
  · decide

/-- Claim C7, amended: the two-line run does not panic (it evaluates to
the events below, with `first_indent` recorded as 2 characters) and
strips NO characters from `"　World"`, since its leading-whitespace
character count (1) is below `first_indent` (2); in general a line is
stripped — by exactly `first_indent` characters, never bytes — only when
its leading-whitespace character count reaches `first_indent`. -/
theorem claim7_no_strip_below_first_indent :
    ((parseLine Parser.new ("  # Hello".data)).1.state.firstIndent = some 2) ∧
    ((parseLine (parseLine Parser.new ("  # Hello".data)).1 ("　World".data)).2 =
      [ParseEvent.Text ("　World".data), ParseEvent.Newline]) ∧
    (∀ (p : Parser) (fi : Nat) (line : Str),
      stripFirstIndent { p with state := { p.state with firstIndent := some fi } } line =
        ({ p with state := { p.state with firstIndent := some fi } },
         if fi > 0 ∧ leadingWs line ≥ fi then line.drop fi else line)) := by
  refine ⟨by decide, by decide, ?_⟩
  intro p fi line
  simp [stripFirstIndent]

/-- Claim C8, counterexample: in `"a~_b"` the character immediately
before the underscore in the SOURCE is `~` (not alphanumeric), yet the
parser still treats the underscore as literal — the lone tilde is dropped
by the tokenizer, so the adjacency test sees the Text token `"a"`. The
claimed "exactly when both adjacent source characters are alphanumeric"
therefore fails. -/
theorem claim8_counterexample :
    inlineParse true true ("a~_b".data) = [InlineElement.Text ("a_b".data)] := by
  decide

/-- Claim C8, amended: the adjacency test is on the TOKEN stream, not raw
source characters: a lone underscore is literal exactly when the
preceding token is a Text ending in an alphanumeric and the following
token is a Text starting with one (tokenizer-dropped markers such as a
lone `~` are invisible to it); consequently `"use sem_search tool"`
parses to the single Text element with no Italic. -/
theorem claim8_underscore_token_adjacency :
    (inlineParse true true ("use sem_search tool".data) =
      [InlineElement.Text ("use sem_search tool".data)]) ∧
    (∀ (b i u s : Bool) (cb buffer : Str) (prev : Option Token) (rest : List Token),
      parseTokensAux ⟨b, i, u, s, none, cb⟩ buffer prev (Token.Underscore :: rest) =
        if prevAlnum prev && nextAlnum rest.head? then
          parseTokensAux ⟨b, i, u, s, none, cb⟩ (buffer ++ ['_'])
            (some Token.Underscore) rest
        else
          emitFormatted ⟨b, i, u, s, none, cb⟩ buffer ++
            parseTokensAux ⟨b, !i, u, s, none, cb⟩ [] (some Token.Underscore) rest) := by
  refine ⟨by decide, ?_⟩
  intro b i u s cb buffer prev rest
  by_cases h : prevAlnum prev && nextAlnum rest.head? = true
  · simp [parseTokensAux, h]
  · simp [parseTokensAux, h]

end Streamdown

namespace Streamdown

theorem listInv_of_eq {st st' : ParseState} (h1 : st'.inList = st.inList)
    (h2 : st'.listItemStack = st.listItemStack)
    (h3 : st'.orderedListNumbers = st.orderedListNumbers) :
    listInv st → listInv st' := by
  intro h
  unfold listInv at h ⊢
  rw [h1, h2, h3]
  exact h

theorem inv_pushList {st : ParseState} (i : Nat) (t : ListType)
    (h : listInv st) : listInv (st.pushList i t) := by
  obtain ⟨h1, h2⟩ := h
  cases t <;>
    simp [ParseState.pushList, listInv, List.filter, h2]

theorem inv_popList {st : ParseState} (h : listInv st) : listInv (st.popList).2 := by
  obtain ⟨h1, h2⟩ := h
  unfold ParseState.popList
  cases hs : st.listItemStack with
  | nil =>
    constructor <;> simp [hs] at h2 ⊢
    · exact h2
  | cons top rest =>
    obtain ⟨i, t⟩ := top
    rw [hs] at h2
    cases ht : t with
    | Ordered =>
      simp [List.filter, ht] at h2
      constructor
      · simp [Bool.not_eq_true']
      · simp [List.length_tail, h2]
    | Bullet =>
      simp [List.filter, ht] at h2
      constructor
      · simp [Bool.not_eq_true']
      · simpa using h2

theorem inv_nextListNumber {st : ParseState} (h : listInv st) :
    listInv (st.nextListNumber).2 := by
  obtain ⟨h1, h2⟩ := h
  unfold ParseState.nextListNumber
  cases hn : st.orderedListNumbers with
  | nil => exact ⟨h1, h2⟩
  | cons n rest =>
    refine ⟨h1, ?_⟩
    rw [hn] at h2
    simpa using h2

end Streamdown

namespace Streamdown

theorem inv_popListsN (n : Nat) : ∀ st : ParseState, listInv st → listInv (popListsN n st) := by
  induction n with
  | zero => intro st h; exact h
  | succ m ih =>
    intro st h
    simp only [popListsN]
    split
    · exact ih _ (inv_popList h)
    · exact h

theorem inv_popAllLists {st : ParseState} (h : listInv st) : listInv (popAllLists st) :=
  inv_popListsN _ st h

theorem inv_popWhileGreaterGo (ind : Nat) (fuel : Nat) :
    ∀ st : ParseState, listInv st → listInv (popWhileGreaterGo ind fuel st) := by
  induction fuel with
  | zero => intro st h; exact h
  | succ m ih =>
    intro st h
    simp only [popWhileGreaterGo]
    split
    · split
      · exact ih _ (inv_popList h)
      · exact h
    · exact h

theorem inv_popWhileGreater {st : ParseState} (ind : Nat) (h : listInv st) :
    listInv (popWhileGreater st ind) :=
  inv_popWhileGreaterGo ind _ st h

theorem inv_exitBlock {st : ParseState} (h : listInv st) : listInv st.exitBlock := by
  unfold ParseState.exitBlock
  split <;> (dsimp only; split <;> exact listInv_of_eq rfl rfl rfl h)

theorem inv_applyN_exitBlock (n : Nat) :
    ∀ st : ParseState, listInv st → listInv (applyN ParseState.exitBlock n st) := by
  induction n with
  | zero => intro st h; exact h
  | succ m ih => intro st h; exact ih _ (inv_exitBlock h)

theorem inv_applyN_enterBlock (t : BlockType) (n : Nat) :
    ∀ st : ParseState, listInv st → listInv (applyN (fun s => s.enterBlock t) n st) := by
  induction n with
  | zero => intro st h; exact h
  | succ m ih =>
    intro st h
    exact ih _ (listInv_of_eq rfl rfl rfl h)

theorem inv_enterCodeBlock {st : ParseState} (t : Code) (lang : Option Str)
    (h : listInv st) : listInv (st.enterCodeBlock t lang) :=
  listInv_of_eq rfl rfl rfl h

theorem inv_exitCodeBlock {st : ParseState} (h : listInv st) : listInv st.exitCodeBlock :=
  listInv_of_eq rfl rfl rfl h

end Streamdown

namespace Streamdown

theorem inv_stripFirstIndent {p : Parser} (line : Str) (h : listInv p.state) :
    listInv (stripFirstIndent p line).1.state := by
  unfold stripFirstIndent
  dsimp only
  split <;> exact listInv_of_eq rfl rfl rfl h

theorem inv_parseInCodeBlock {p : Parser} (line : Str) (h : listInv p.state) :
    listInv (parseInCodeBlock p line).1.state := by
  unfold parseInCodeBlock
  dsimp only
  split
  · exact inv_exitCodeBlock h
  · split
    · exact inv_exitCodeBlock h
    · exact h

theorem inv_parseInThinkBlock {p : Parser} (line : Str) (h : listInv p.state) :
    listInv (parseInThinkBlock p line).1.state := by
  unfold parseInThinkBlock
  split
  · exact inv_exitBlock h
  · exact h

theorem inv_exitListContext {p : Parser} (h : listInv p.state) :
    listInv (exitListContext p).1.state :=
  inv_popAllLists h

theorem inv_resolvePending {p : Parser} (h : listInv p.state) :
    listInv (resolvePendingListClose p).1.state := by
  unfold resolvePendingListClose
  dsimp only
  split
  · split
    · exact inv_popAllLists h
    · exact h
  · exact h

theorem inv_exitBlockContexts {p : Parser} (h : listInv p.state) :
    listInv (exitBlockContexts p).1.state := by
  unfold exitBlockContexts
  dsimp only
  split <;> split <;>
    first
      | exact inv_popAllLists h
      | exact listInv_of_eq rfl rfl rfl (inv_popAllLists h)
      | exact listInv_of_eq rfl rfl rfl h

theorem inv_handleEmptyLine {p : Parser} (h : listInv p.state) :
    listInv (handleEmptyLine p).1.state := by
  unfold handleEmptyLine
  dsimp only
  split
  · exact h
  · have h1 : listInv ({ p.state with lastLineEmpty := true } : ParseState) :=
      listInv_of_eq rfl rfl rfl h
    split <;> split <;> split <;>
      first
        | exact listInv_of_eq rfl rfl rfl (inv_applyN_exitBlock _ _ h1)
        | exact inv_applyN_exitBlock _ _ h1
        | exact listInv_of_eq rfl rfl rfl h1

theorem inv_tryParseCodeFence {p : Parser} (line : Str) (q : Parser)
    (evs : List ParseEvent) (hq : tryParseCodeFence p line = some (q, evs))
    (h : listInv p.state) : listInv q.state := by
  unfold tryParseCodeFence at hq
  split at hq
  · simp only [Option.some.injEq, Prod.mk.injEq] at hq
    obtain ⟨hq1, -⟩ := hq
    subst hq1
    exact inv_enterCodeBlock _ _ (listInv_of_eq rfl rfl rfl h)
  · exact absurd hq (by simp)

theorem inv_tryParseSpaceCode {p : Parser} (line : Str) (w : Bool) (q : Parser)
    (evs : List ParseEvent) (hq : tryParseSpaceCode p line w = some (q, evs))
    (h : listInv p.state) : listInv q.state := by
  unfold tryParseSpaceCode at hq
  split at hq
  · exact absurd hq (by simp)
  · split at hq
    · exact absurd hq (by simp)
    · split at hq
      · simp only [Option.some.injEq, Prod.mk.injEq] at hq
        obtain ⟨hq1, -⟩ := hq
        subst hq1
        exact inv_enterCodeBlock _ _ h
      · exact absurd hq (by simp)

theorem inv_tryParseBlock {p : Parser} (line : Str) (h : listInv p.state) :
    listInv (tryParseBlock p line).2.1.state := by
  unfold tryParseBlock
  dsimp only
  split
  · split
    · exact listInv_of_eq rfl rfl rfl (inv_applyN_exitBlock _ _ h)
    · exact h
  · split
    · split
      · split
        · exact inv_exitBlock h
        · exact h
      · exact listInv_of_eq rfl rfl rfl h
    · split
      · split
        · split
          · exact listInv_of_eq rfl rfl rfl (inv_applyN_enterBlock _ _ _ h)
          · exact listInv_of_eq rfl rfl rfl (inv_applyN_exitBlock _ _ h)
        · exact listInv_of_eq rfl rfl rfl h
      · split
        · exact listInv_of_eq rfl rfl rfl (inv_applyN_exitBlock _ _ h)
        · exact h

theorem inv_tryParseListItem {p : Parser} (line : Str) (q : Parser)
    (evs : List ParseEvent) (hq : tryParseListItem p line = some (q, evs))
    (h : listInv p.state) : listInv q.state := by
  unfold tryParseListItem at hq
  split at hq
  next indStr bulletStr content heq =>
    simp only [Option.some.injEq, Prod.mk.injEq] at hq
    obtain ⟨hq1, -⟩ := hq
    subst hq1
    dsimp only
    split
    next n hb =>
      apply inv_nextListNumber
      split
      · exact inv_pushList _ _ (inv_popWhileGreater _ (listInv_of_eq rfl rfl rfl h))
      · exact inv_popWhileGreater _ (listInv_of_eq rfl rfl rfl h)
    next hb =>
      split
      · exact inv_pushList _ _ (inv_popWhileGreater _ (listInv_of_eq rfl rfl rfl h))
      · exact inv_popWhileGreater _ (listInv_of_eq rfl rfl rfl h)
  next => exact absurd hq (by simp)

theorem inv_tryParseTable {p : Parser} (line : Str) (h : listInv p.state) :
    listInv (tryParseTable p line).2.1.state := by
  unfold tryParseTable
  dsimp only
  split
  · split
    · exact listInv_of_eq rfl rfl rfl h
    · split <;> exact listInv_of_eq rfl rfl rfl h
  · split
    · exact listInv_of_eq rfl rfl rfl h
    · exact h

end Streamdown

namespace Streamdown

theorem inv_parseLineDispatch {p : Parser} (line : Str) (w : Bool)
    (h : listInv p.state) : listInv (parseLineDispatch p line w).1.state := by
  unfold parseLineDispatch
  split
  next q evs hsc =>
    exact inv_resolvePending (inv_tryParseSpaceCode _ _ _ _ hsc h)
  next hsc =>
    rcases hsf : stripFirstIndent p line with ⟨p2, line2⟩
    dsimp only
    have h2 : listInv p2.state := by
      have hx := inv_stripFirstIndent (p := p) line h
      rw [hsf] at hx
      exact hx
    split
    next q evs hcf =>
      exact inv_resolvePending (inv_tryParseCodeFence _ _ _ hcf h2)
    next hcf =>
      rcases hb : tryParseBlock p2 line2 with ⟨bm, p3, evB⟩
      dsimp only
      have h3 : listInv p3.state := by
        have hx := inv_tryParseBlock (p := p2) line2 h2
        rw [hb] at hx
        exact hx
      split
      · exact inv_resolvePending h3
      · split
        next evH hhd =>
          exact inv_resolvePending h3
        next hhd =>
          split
          · exact inv_resolvePending h3
          · split
            next q evL hli =>
              exact listInv_of_eq rfl rfl rfl
                (inv_tryParseListItem (p := p3) line2 q evL hli h3)
            next hli =>
              rcases ht : tryParseTable p3 line2 with ⟨tm, p4, evT⟩
              dsimp only
              have h4 : listInv p4.state := by
                have hx := inv_tryParseTable (p := p3) line2 h3
                rw [ht] at hx
                exact hx
              split
              · exact inv_resolvePending h4
              · exact inv_exitBlockContexts (inv_resolvePending h4)

theorem inv_parseLine {p : Parser} (line : Str) (h : listInv p.state) :
    listInv (parseLine p line).1.state := by
  unfold parseLine
  split
  · exact inv_parseInCodeBlock _ h
  · split
    · exact inv_parseInThinkBlock _ h
    · split
      · exact inv_handleEmptyLine h
      · exact inv_parseLineDispatch _ _ (listInv_of_eq rfl rfl rfl h)

theorem inv_finalizeCode {p : Parser} (h : listInv p.state) :
    listInv (finalizeCode p).1.state := by
  unfold finalizeCode
  split
  · exact inv_exitCodeBlock h
  · exact h

theorem inv_finalizeThink {p : Parser} (h : listInv p.state) :
    listInv (finalizeThink p).1.state := by
  unfold finalizeThink
  split
  · exact inv_exitBlock h
  · exact h

theorem inv_finalizeQuote {p : Parser} (h : listInv p.state) :
    listInv (finalizeQuote p).1.state := by
  unfold finalizeQuote
  split
  · exact inv_applyN_exitBlock _ _ h
  · exact h

theorem inv_finalizeList {p : Parser} (h : listInv p.state) :
    listInv (finalizeList p).1.state := by
  unfold finalizeList
  dsimp only
  split
  · exact inv_popAllLists (listInv_of_eq rfl rfl rfl h)
  · exact listInv_of_eq rfl rfl rfl h

theorem inv_finalizeTable {p : Parser} (h : listInv p.state) :
    listInv (finalizeTable p).1.state := by
  unfold finalizeTable
  split
  · exact listInv_of_eq rfl rfl rfl h
  · exact h

theorem inv_finalize {p : Parser} (h : listInv p.state) :
    listInv (finalize p).1.state := by
  unfold finalize
  exact inv_finalizeTable (inv_finalizeList
    (inv_finalizeQuote (inv_finalizeThink (inv_finalizeCode h))))

theorem inv_new : listInv Parser.new.state := ⟨rfl, rfl⟩

theorem inv_reset (p : Parser) : listInv (Parser.reset p).state := by
  unfold Parser.reset
  exact listInv_of_eq rfl rfl rfl inv_new

end Streamdown

namespace Streamdown

/-- C9: after any sequence of parse_line / finalize / reset calls from a
fresh parser, `in_list` equals stack non-emptiness and the ordered-number
list has one entry per Ordered stack frame; push_list and pop_list each
preserve this invariant. -/
theorem claim9_list_invariant :
    (∀ p : Parser, ReachableParser p → listInv p.state) ∧
    (∀ (st : ParseState) (i : Nat) (t : ListType),
      listInv st → listInv (st.pushList i t)) ∧
    (∀ st : ParseState, listInv st → listInv st.popList.2) := by
  refine ⟨?_, fun st i t h => inv_pushList i t h, fun st h => inv_popList h⟩
  intro p hp
  induction hp with
  | new => exact inv_new
  | parse q line hq ih => exact inv_parseLine line ih
  | fin q hq ih => exact inv_finalize ih
  | reset q hq ih => exact inv_reset q

theorem claim9_list_invariant_witness :
    listInv (parseLine Parser.new ['-', ' ', 'a']).1.state :=
  claim9_list_invariant.1 _ (ReachableParser.parse Parser.new ['-', ' ', 'a']
    ReachableParser.new)

end Streamdown

namespace Streamdown

theorem sepFold_append (b : Bool) (xs ys : List ParseEvent) :
    sepFold b (xs ++ ys) = sepFold (sepFold b xs) ys := by
  simp [sepFold, List.foldl_append]

theorem rowsCovered_append (b : Bool) (xs ys : List ParseEvent) :
    rowsCovered b (xs ++ ys) =
      (rowsCovered b xs && rowsCovered (sepFold b xs) ys) := by
  induction xs generalizing b with
  | nil => simp [rowsCovered, sepFold]
  | cons e xs ih =>
    cases e <;>
      simp [rowsCovered, sepFold, sepFoldStep, ih, Bool.and_assoc, List.foldl]

theorem neutral_sepFoldStep {e : ParseEvent} (h : tableNeutral e = true)
    (b : Bool) : sepFoldStep b e = b := by
  cases e <;> first | rfl | exact absurd h (by simp [tableNeutral])

theorem neutral_sepFold {evs : List ParseEvent}
    (h : evs.all tableNeutral = true) (b : Bool) : sepFold b evs = b := by
  induction evs generalizing b with
  | nil => rfl
  | cons e xs ih =>
    rw [List.all_cons, Bool.and_eq_true] at h
    show sepFold (sepFoldStep b e) xs = b
    rw [neutral_sepFoldStep h.1, ih h.2]

theorem neutral_rows {evs : List ParseEvent}
    (h : evs.all tableNeutral = true) (b : Bool) : rowsCovered b evs = true := by
  induction evs generalizing b with
  | nil => rfl
  | cons e xs ih =>
    rw [List.all_cons, Bool.and_eq_true] at h
    cases e <;>
      first
        | (show rowsCovered _ xs = true; exact ih h.2 _)
        | exact absurd h.1 (by simp [tableNeutral])

theorem contract_neutral {p q : Parser} {evs : List ParseEvent}
    (hn : evs.all tableNeutral = true) (hts : q.tableState = p.tableState) :
    tableContract p (q, evs) := by
  intro b hb
  refine ⟨neutral_rows hn b, ?_⟩
  rw [neutral_sepFold hn b, hb, hts]

theorem contract_comp {p : Parser} (r1 r2 : Parser × List ParseEvent)
    (h1 : tableContract p r1) (h2 : tableContract r1.1 r2) :
    tableContract p (r2.1, r1.2 ++ r2.2) := by
  intro b hb
  obtain ⟨ha, hf⟩ := h1 b hb
  obtain ⟨hc, hd⟩ := h2 (sepFold b r1.2) hf
  refine ⟨?_, ?_⟩
  · rw [rowsCovered_append, ha, hc]
    exact rfl
  · rw [sepFold_append, hd]

theorem contract_retarget {p q : Parser} (hts : q.tableState = p.tableState)
    {r : Parser × List ParseEvent} (h : tableContract q r) :
    tableContract p r := by
  intro b hb
  refine h b ?_
  rw [hts]
  exact hb

theorem inlineToEvent_neutral (e : InlineElement) :
    tableNeutral (inlineToEvent e) = true := by
  cases e <;> rfl

theorem inlineContent_neutral (p : Parser) (line : Str) :
    (parseInlineContent p line).all tableNeutral = true := by
  unfold parseInlineContent
  rw [List.all_append, Bool.and_eq_true]
  refine ⟨?_, rfl⟩
  rw [List.all_eq_true]
  intro e he
  rw [List.mem_map] at he
  obtain ⟨ie, -, rfl⟩ := he
  exact inlineToEvent_neutral ie

end Streamdown

namespace Streamdown

theorem stripFirstIndent_tableState (p : Parser) (line : Str) :
    (stripFirstIndent p line).1.tableState = p.tableState := rfl

theorem contract_exitListContext (p : Parser) :
    tableContract p (exitListContext p) := fun b hb => ⟨rfl, hb⟩

theorem contract_resolvePending (p : Parser) :
    tableContract p (resolvePendingListClose p) := by
  intro b hb
  unfold resolvePendingListClose
  split
  · dsimp only
    split
    · exact ⟨rfl, hb⟩
    · exact ⟨rfl, hb⟩
  · exact ⟨rfl, hb⟩

theorem contract_exitBlockContexts (p : Parser) :
    tableContract p (exitBlockContexts p) := by
  intro b hb
  unfold exitBlockContexts
  dsimp only
  split <;> split <;> refine ⟨rfl, ?_⟩ <;>
    first
      | exact rfl
      | exact hb
      | (rename_i ht
         rw [hb, show p.tableState = none from ht]
         exact rfl)
      | (rename_i ht
         rw [Option.not_isSome_iff_eq_none] at ht
         rw [hb, show p.tableState = none from ht]
         exact rfl)

theorem contract_handleEmptyLine (p : Parser) :
    tableContract p (handleEmptyLine p) := by
  intro b hb
  unfold handleEmptyLine
  split
  · exact ⟨rfl, hb⟩
  · dsimp only
    split <;> split <;> split <;> refine ⟨rfl, ?_⟩ <;>
      first
        | exact rfl
        | (rw [hb]
           rename_i ht
           rw [Option.not_isSome_iff_eq_none] at ht
           rw [ht]
           rfl)

theorem contract_parseInCodeBlock (p : Parser) (line : Str) :
    tableContract p (parseInCodeBlock p line) := by
  intro b hb
  unfold parseInCodeBlock
  split <;> dsimp only <;> repeat' split
  all_goals
    first
      | exact ⟨rfl, hb⟩
      | (refine ⟨?_, ?_⟩
         · show rowsCovered b (parseInlineContent _ line) = true
           exact neutral_rows (inlineContent_neutral _ line) b
         · show sepFold b (parseInlineContent _ line) = _
           rw [neutral_sepFold (inlineContent_neutral _ line) b]
           exact hb)

theorem contract_parseInThinkBlock (p : Parser) (line : Str) :
    tableContract p (parseInThinkBlock p line) := by
  intro b hb
  unfold parseInThinkBlock
  split
  · exact ⟨rfl, hb⟩
  · exact ⟨rfl, hb⟩

theorem contract_tryParseSpaceCode {p : Parser} {line : Str} {w : Bool}
    {q : Parser} {evs : List ParseEvent}
    (hq : tryParseSpaceCode p line w = some (q, evs)) :
    tableContract p (q, evs) := by
  unfold tryParseSpaceCode at hq
  split at hq
  · exact absurd hq (by simp)
  · split at hq
    · exact absurd hq (by simp)
    · split at hq
      · simp only [Option.some.injEq, Prod.mk.injEq] at hq
        obtain ⟨hq1, hq2⟩ := hq
        subst hq1
        subst hq2
        exact fun b hb => ⟨rfl, hb⟩
      · exact absurd hq (by simp)

theorem contract_tryParseCodeFence {p : Parser} {line : Str}
    {q : Parser} {evs : List ParseEvent}
    (hq : tryParseCodeFence p line = some (q, evs)) :
    tableContract p (q, evs) := by
  unfold tryParseCodeFence at hq
  split at hq
  · simp only [Option.some.injEq, Prod.mk.injEq] at hq
    obtain ⟨hq1, hq2⟩ := hq
    subst hq1
    subst hq2
    exact fun b hb => ⟨rfl, hb⟩
  · exact absurd hq (by simp)

theorem contract_tryParseBlock (p : Parser) (line : Str) :
    tableContract p (tryParseBlock p line).2 := by
  intro b hb
  unfold tryParseBlock
  dsimp only
  split
  · split
    · exact ⟨rfl, hb⟩
    · exact ⟨rfl, hb⟩
  · split
    · split
      · split
        · exact ⟨rfl, hb⟩
        · exact ⟨rfl, hb⟩
      · split
        · exact ⟨rfl, hb⟩
        · exact ⟨rfl, hb⟩
    · split
      · split
        · split
          · exact ⟨rfl, hb⟩
          · exact ⟨rfl, hb⟩
        · exact ⟨rfl, hb⟩
      · split
        · exact ⟨rfl, hb⟩
        · exact ⟨rfl, hb⟩

theorem contract_tryParseListItem {p : Parser} {line : Str}
    {q : Parser} {evs : List ParseEvent}
    (hq : tryParseListItem p line = some (q, evs)) :
    tableContract p (q, evs) := by
  unfold tryParseListItem at hq
  split at hq
  next indStr bulletStr content heq =>
    simp only [Option.some.injEq, Prod.mk.injEq] at hq
    obtain ⟨hq1, hq2⟩ := hq
    subst hq1
    subst hq2
    intro b hb
    refine ⟨?_, ?_⟩
    · dsimp only
      split
      · exact rfl
      · exact rfl
    · dsimp only
      split
      · exact hb
      · exact hb
  next => exact absurd hq (by simp)

theorem contract_tryParseHeading {line : Str} {evs : List ParseEvent}
    (hq : tryParseHeading line = some evs) : evs.all tableNeutral = true := by
  unfold tryParseHeading at hq
  cases hcap : headingCapture line with
  | none => rw [hcap] at hq; exact absurd hq (by simp)
  | some rc =>
    rw [hcap] at hq
    simp only [Option.map_some', Option.some.injEq] at hq
    subst hq
    rfl

theorem contract_tryParseTable (p : Parser) (line : Str) :
    tableContract p (tryParseTable p line).2 := by
  intro b hb
  unfold tryParseTable
  dsimp only
  split
  · split
    · exact ⟨rfl, rfl⟩
    · split
      next hts =>
        rw [hts] at hb
        exact ⟨rfl, hb⟩
      next hts =>
        exact ⟨rfl, hb⟩
      next hts =>
        have hb2 : b = true := by rw [hb, hts]; rfl
        refine ⟨?_, hb⟩
        show (b && rowsCovered b []) = true
        rw [hb2]
        rfl
  · split
    · exact ⟨rfl, rfl⟩
    · exact ⟨rfl, hb⟩

end Streamdown

namespace Streamdown

theorem contract_finalizeCode (p : Parser) :
    tableContract p (finalizeCode p) := by
  intro b hb
  unfold finalizeCode
  split
  · exact ⟨rfl, hb⟩
  · exact ⟨rfl, hb⟩

theorem contract_finalizeThink (p : Parser) :
    tableContract p (finalizeThink p) := by
  intro b hb
  unfold finalizeThink
  split
  · exact ⟨rfl, hb⟩
  · exact ⟨rfl, hb⟩

theorem contract_finalizeQuote (p : Parser) :
    tableContract p (finalizeQuote p) := by
  intro b hb
  unfold finalizeQuote
  split
  · exact ⟨rfl, hb⟩
  · exact ⟨rfl, hb⟩

theorem contract_finalizeList (p : Parser) :
    tableContract p (finalizeList p) := by
  intro b hb
  unfold finalizeList
  dsimp only
  split
  · exact ⟨rfl, hb⟩
  · exact ⟨rfl, hb⟩

theorem contract_finalizeTable (p : Parser) :
    tableContract p (finalizeTable p) := by
  intro b hb
  unfold finalizeTable
  split
  · exact ⟨rfl, rfl⟩
  next hts =>
    rw [Option.not_isSome_iff_eq_none] at hts
    rw [hb, hts]
    exact ⟨rfl, rfl⟩

theorem contract_finalize (p : Parser) :
    tableContract p (finalize p) := by
  have c1 := contract_finalizeCode p
  have c2 := contract_comp _ _ c1 (contract_finalizeThink _)
  have c3 := contract_comp _ _ c2 (contract_finalizeQuote _)
  have c4 := contract_comp _ _ c3 (contract_finalizeList _)
  have c5 := contract_comp _ _ c4 (contract_finalizeTable _)
  exact c5

theorem contract_parseLineDispatch (p : Parser) (line : Str) (w : Bool) :
    tableContract p (parseLineDispatch p line w) := by
  unfold parseLineDispatch
  split
  next q evs hsc =>
    exact contract_comp (q, evs) _ (contract_tryParseSpaceCode hsc)
      (contract_resolvePending q)
  next hsc =>
    rcases hsf : stripFirstIndent p line with ⟨p2, line2⟩
    dsimp only
    have hts2 : p2.tableState = p.tableState := by
      have hx := stripFirstIndent_tableState p line
      rw [hsf] at hx
      exact hx
    have hlift : ∀ r : Parser × List ParseEvent,
        tableContract p2 r → tableContract p r := by
      intro r hr b hb
      refine hr b ?_
      rw [hts2]
      exact hb
    split
    next q evs hcf =>
      exact hlift _ (contract_comp (q, evs) _ (contract_tryParseCodeFence hcf)
        (contract_resolvePending q))
    next hcf =>
      rcases hb : tryParseBlock p2 line2 with ⟨bm, p3, evB⟩
      dsimp only
      have c1 : tableContract p2 (p3, evB) := by
        have hx := contract_tryParseBlock p2 line2
        rw [hb] at hx
        exact hx
      split
      · exact hlift _ (contract_comp (p3, evB) _ c1 (contract_resolvePending p3))
      · split
        next evH hhd =>
          have c2 : tableContract p3 (p3, evH) :=
            contract_neutral (contract_tryParseHeading hhd) rfl
          exact hlift _ (contract_comp (p3, evB ++ evH) _
            (contract_comp (p3, evB) (p3, evH) c1 c2)
            (contract_resolvePending p3))
        next hhd =>
          split
          · have c2 : tableContract p3 (p3, [ParseEvent.HorizontalRule]) :=
              contract_neutral rfl rfl
            exact hlift _ (contract_comp (p3, evB ++ [ParseEvent.HorizontalRule]) _
              (contract_comp (p3, evB) (p3, [ParseEvent.HorizontalRule]) c1 c2)
              (contract_resolvePending p3))
          · split
            next q evL hli =>
              exact hlift _ (contract_comp (p3, evB) (q, evL) c1
                (contract_tryParseListItem hli))
            next hli =>
              rcases ht : tryParseTable p3 line2 with ⟨tm, p4, evT⟩
              dsimp only
              have c2 : tableContract p3 (p4, evT) := by
                have hx := contract_tryParseTable p3 line2
                rw [ht] at hx
                exact hx
              have c12 : tableContract p2 (p4, evB ++ evT) :=
                contract_comp (p3, evB) (p4, evT) c1 c2
              split
              · exact hlift _ (contract_comp (p4, evB ++ evT) _ c12
                  (contract_resolvePending p4))
              · have c3 := contract_comp (p4, evB ++ evT) _ c12
                  (contract_resolvePending p4)
                have c4 := contract_comp _ _ c3
                  (contract_exitBlockContexts (resolvePendingListClose p4).1)
                have c5 := contract_comp _ _ c4
                  (contract_neutral (inlineContent_neutral
                    (exitBlockContexts (resolvePendingListClose p4).1).1 line2) rfl)
                exact hlift _ c5

theorem contract_parseLine (p : Parser) (line : Str) :
    tableContract p (parseLine p line) := by
  unfold parseLine
  split
  · exact contract_parseInCodeBlock p line
  · split
    · exact contract_parseInThinkBlock p line
    · split
      · exact contract_handleEmptyLine p
      · refine contract_retarget
          (q := { p with prevWasEmpty := false,
                         state := { p.state with lastLineEmpty := false } })
          rfl ?_
        exact contract_parseLineDispatch _ line p.prevWasEmpty

theorem contract_feedLines (lines : List Str) : ∀ p : Parser,
    tableContract p (feedLines p lines) := by
  induction lines with
  | nil => exact fun p b hb => ⟨rfl, hb⟩
  | cons l ls ih =>
    intro p
    exact contract_comp (parseLine p l) _ (contract_parseLine p l)
      (ih (parseLine p l).1)

theorem contract_runDocument (lines : List Str) :
    tableContract Parser.new (runDocument lines) :=
  contract_comp (feedLines Parser.new lines) _
    (contract_feedLines lines Parser.new)
    (contract_finalize (feedLines Parser.new lines).1)

end Streamdown

namespace Streamdown

/-- C10: in any document run, every `TableRow` is emitted while a
`TableSeparator` is open for its table (set by the separator, cleared by
`TableEnd`), so no row precedes its table's separator; and a `|...|` row
seen in Header phase that does not match the separator pattern emits
another `TableHeader`, never a `TableRow`. -/
theorem claim10_separator_precedes_rows :
    (∀ lines : List Str, rowsCovered false (runDocument lines).2 = true) ∧
    (∀ (p : Parser) (line inner : Str),
      p.tableState = some TableState.Header →
      tableRowCapture line = some inner →
      tableSepMatch inner = false →
      tryParseTable p line =
        (true, p, [ParseEvent.TableHeader (splitCells inner)])) := by
  constructor
  · intro lines
    exact (contract_runDocument lines false rfl).1
  · intro p line inner hts hcap hsep
    unfold tryParseTable
    rw [hcap]
    dsimp only
    rw [if_neg (fun hand => by rw [hsep] at hand; exact absurd hand.1 (by simp))]
    rw [hts]

theorem claim10_separator_precedes_rows_witness :
    rowsCovered false (runDocument
      [['|','a','|'], ['|','-','|'], ['|','b','|']]).2 = true ∧
    tryParseTable { Parser.new with tableState := some TableState.Header }
        ['|','x','|'] =
      (true, { Parser.new with tableState := some TableState.Header },
        [ParseEvent.TableHeader [['x']]]) :=
  ⟨claim10_separator_precedes_rows.1 _,
   claim10_separator_precedes_rows.2 _ _ ['x'] rfl (by decide) (by decide)⟩

end Streamdown

namespace Streamdown

theorem visibleLength_no_esc {l : Str} (h : escFree l) :
    visibleLength l = strWidth l := by
  unfold visibleLength
  rw [visScan_no_esc l h]

theorem escFree_append {a b : Str} (ha : escFree a) (hb : escFree b) :
    escFree (a ++ b) := by
  intro c hc
  rcases List.mem_append.mp hc with h | h
  · exact ha c h
  · exact hb c h

theorem escFree_spaces (n : Nat) : escFree (List.replicate n ' ') := by
  intro c hc
  rw [List.eq_of_mem_replicate hc]
  decide

theorem escFree_nil : escFree ([] : Str) := by
  intro c hc
  exact absurd hc (List.not_mem_nil c)

theorem matchAnsiEscape_reset (ys : Str) :
    matchAnsiEscape (escCh :: '[' :: '0' :: 'm' :: ys) = some 4 := by
  have h1 : List.takeWhile
      (fun c => isDigitC c || decide (c = ';') || decide (c = '?'))
      ('0' :: 'm' :: ys) = ['0'] := by
    rw [List.takeWhile_cons_of_pos (by decide), List.takeWhile_cons_of_neg (by decide)]
  simp [matchAnsiEscape, h1]

theorem visScanGo_reset (fuel : Nat) (xs ys : Str) (hx : escFree xs)
    (hy : escFree ys) (hf : xs.length + 1 + ys.length ≤ fuel) :
    visScanGo fuel (xs ++ escCh :: '[' :: '0' :: 'm' :: ys) = xs ++ ys := by
  induction xs generalizing fuel with
  | nil =>
    cases fuel with
    | zero => omega
    | succ n =>
      show visScanGo (n + 1) (escCh :: '[' :: '0' :: 'm' :: ys) = ys
      rw [show visScanGo (n + 1) (escCh :: '[' :: '0' :: 'm' :: ys) =
        if escCh = escCh then
          match matchAnsiEscape (escCh :: '[' :: '0' :: 'm' :: ys) with
          | some len => visScanGo n (('[' :: '0' :: 'm' :: ys).drop (len - 1))
          | none => escCh :: visScanGo n ('[' :: '0' :: 'm' :: ys)
        else escCh :: visScanGo n ('[' :: '0' :: 'm' :: ys) from rfl]
      rw [if_pos rfl, matchAnsiEscape_reset]
      show visScanGo n ys = ys
      exact visScanGo_no_esc n ys (by simp at hf; omega) hy
  | cons c xs ih =>
    cases fuel with
    | zero => simp at hf
    | succ n =>
      have hc : c ≠ escCh := hx c (List.mem_cons_self c xs)
      show visScanGo (n + 1) (c :: (xs ++ escCh :: '[' :: '0' :: 'm' :: ys)) = c :: (xs ++ ys)
      rw [show visScanGo (n + 1) (c :: (xs ++ escCh :: '[' :: '0' :: 'm' :: ys)) =
        if c = escCh then
          match matchAnsiEscape (c :: (xs ++ escCh :: '[' :: '0' :: 'm' :: ys)) with
          | some len => visScanGo n ((xs ++ escCh :: '[' :: '0' :: 'm' :: ys).drop (len - 1))
          | none => c :: visScanGo n (xs ++ escCh :: '[' :: '0' :: 'm' :: ys)
        else c :: visScanGo n (xs ++ escCh :: '[' :: '0' :: 'm' :: ys) from rfl]
      rw [if_neg hc]
      rw [ih n (fun d hd => hx d (List.mem_cons_of_mem c hd)) (by simp at hf ⊢; omega)]

theorem resetterOk_nil : resetterOk [] := by
  intro xs ys hx hy
  rw [List.append_nil]
  exact visScan_no_esc _ (escFree_append hx hy)

theorem resetterOk_sgr : resetterOk (escCh :: '[' :: '0' :: 'm' :: []) := by
  intro xs ys hx hy
  unfold visScan
  rw [show xs ++ (escCh :: '[' :: '0' :: 'm' :: []) ++ ys =
    xs ++ escCh :: '[' :: '0' :: 'm' :: ys by simp]
  exact visScanGo_reset _ xs ys hx hy (by simp; omega)

theorem extractAnsiCodesGo_no_esc (fuel : Nat) (l : Str) (h : escFree l) :
    extractAnsiCodesGo fuel l = [] := by
  induction fuel generalizing l with
  | zero => rfl
  | succ n ih =>
    cases l with
    | nil => rfl
    | cons c r =>
      have hc : c ≠ escCh := h c (List.mem_cons_self c r)
      show (if c = escCh then _ else extractAnsiCodesGo n r) = []
      rw [if_neg hc]
      exact ih r (fun d hd => h d (List.mem_cons_of_mem c hd))

theorem extractAnsiCodes_no_esc {l : Str} (h : escFree l) :
    extractAnsiCodes l = [] :=
  extractAnsiCodesGo_no_esc l.length l h

theorem ansiCollapse_nil : ansiCollapse [] [] = [] := rfl

theorem le_foldr_max {xs : List Nat} {x : Nat} (h : x ∈ xs) :
    x ≤ xs.foldr max 0 := by
  induction xs with
  | nil => exact absurd h (List.not_mem_nil x)
  | cons a ys ih =>
    rcases List.mem_cons.mp h with rfl | h2
    · exact Nat.le_max_left _ _
    · exact Nat.le_trans (ih h2) (Nat.le_max_right _ _)

theorem maxWordWidth_mem {text w : Str} (h : w ∈ splitText text) :
    strWidth w ≤ maxWordWidth text :=
  le_foldr_max (List.mem_map_of_mem strWidth h)

end Streamdown

namespace Streamdown

theorem strWidth_spaces (n : Nat) : strWidth (List.replicate n ' ') = n := by
  induction n with
  | zero => rfl
  | succ k ih =>
    rw [List.replicate_succ, strWidth_cons, ih]
    have : (charWidth? ' ').getD 0 = 1 := by decide
    omega

theorem mem_ite_append {α : Type} {C : Prop} [Decidable C] {xs : List α}
    {y l : α} (h : l ∈ if C then xs ++ [y] else xs) : l ∈ xs ∨ l = y := by
  split at h
  · rcases List.mem_append.mp h with h2 | h2
    · exact Or.inl h2
    · exact Or.inr (List.mem_singleton.mp h2)
  · exact Or.inl h

theorem splitTextGo_escFree (l : Str) : ∀ cur : Str, escFree l → escFree cur →
    ∀ w ∈ splitTextGo cur [] false l, escFree w := by
  induction l with
  | nil =>
    intro cur hl hcur w hw
    unfold splitTextGo at hw
    simp only [List.append_nil, ite_self] at hw
    split at hw
    · exact absurd hw (List.not_mem_nil w)
    · rcases List.mem_singleton.mp hw with rfl
      exact hcur
  | cons c r ih =>
    intro cur hl hcur w hw
    have hc : c ≠ escCh := hl c (List.mem_cons_self c r)
    have hr : escFree r := fun d hd => hl d (List.mem_cons_of_mem c hd)
    unfold splitTextGo at hw
    rw [if_neg Bool.false_ne_true] at hw
    rw [if_neg hc] at hw
    split at hw
    · split at hw
      · exact ih cur hr hcur w hw
      · rcases List.mem_cons.mp hw with rfl | hw2
        · exact hcur
        · exact ih [] hr escFree_nil w hw2
    · refine ih (cur ++ [c]) hr ?_ w hw
      intro d hd
      rcases List.mem_append.mp hd with h | h
      · exact hcur d h
      · rw [List.mem_singleton.mp h]
        exact hc

theorem splitText_escFree {text : Str} (h : escFree text) :
    ∀ w ∈ splitText text, escFree w :=
  splitTextGo_escFree text [] h escFree_nil

theorem finalizeLine_inv {fuel width : Nat} {fp np resetter : Str}
    (hfp : escFree fp) (hnp : escFree np) (hres : resetterOk resetter)
    {bound : Nat} (hwb : width ≤ bound) {ws : WrapSt}
    (hws : wrapInv (max (strWidth fp) (strWidth np)) bound ws) :
    wrapInv (max (strWidth fp) (strWidth np)) bound
      (finalizeLine fuel width fp np false resetter ws) ∧
    (finalizeLine fuel width fp np false resetter ws).currentLine =
      ws.currentLine ∧
    (finalizeLine fuel width fp np false resetter ws).currentStyle =
      ws.currentStyle := by
  obtain ⟨h1, h2, h3, h4⟩ := hws
  unfold finalizeLine
  simp only [Bool.false_eq_true, if_false]
  refine ⟨⟨h1, h2, h3, ?_⟩, by trivial, by trivial⟩
  intro l hl
  have hpre : escFree (if ws.lines.isEmpty then fp else np) := by
    split
    · exact hfp
    · exact hnp
  have hpw : strWidth (if ws.lines.isEmpty then fp else np) ≤
      max (strWidth fp) (strWidth np) := by
    split
    · exact Nat.le_max_left _ _
    · exact Nat.le_max_right _ _
  rcases mem_ite_append hl with h | rfl
  · exact h4 l h
  · 
      have hlcfree : escFree ((if ws.lines.isEmpty then fp else np) ++
          ws.currentLine) := escFree_append hpre h2
      rw [show visibleLength ((if ws.lines.isEmpty then fp else np) ++
            ws.currentLine ++ resetter ++ List.replicate
              (width - visibleLength ((if ws.lines.isEmpty then fp else np) ++
                ws.currentLine)) ' ') =
          strWidth ((if ws.lines.isEmpty then fp else np) ++ ws.currentLine) +
            (width - visibleLength ((if ws.lines.isEmpty then fp else np) ++
              ws.currentLine)) from ?_]
      · rw [visibleLength_no_esc hlcfree, strWidth_append]
        omega
      · unfold visibleLength
        rw [hres _ _ hlcfree (escFree_spaces _), strWidth_append, strWidth_spaces]

end Streamdown

namespace Streamdown

theorem escFree_space1 : escFree [' '] := by
  intro c hc
  rw [List.mem_singleton.mp hc]
  decide

theorem strWidth_nil : strWidth ([] : Str) = 0 := rfl

theorem strWidth_space1 : strWidth [' '] = 1 := by decide

set_option maxHeartbeats 3200000 in
theorem wordStep_inv {fuel width indent bound Wd : Nat} {fp np resetter w : Str}
    (hfp : escFree fp) (hnp : escFree np) (hres : resetterOk resetter)
    (hwb : width ≤ bound) (hib : indent + Wd ≤ bound)
    (hw : escFree w) (hwd : strWidth w ≤ Wd) {ws : WrapSt}
    (hws : wrapInv (max (strWidth fp) (strWidth np)) bound ws) :
    wrapInv (max (strWidth fp) (strWidth np)) bound
      (wordStep fuel width indent fp np false resetter ws w) := by
  obtain ⟨h1, h2, h3, h4⟩ := hws
  have hfin := @finalizeLine_inv fuel width fp np resetter
    hfp hnp hres bound hwb ws ⟨h1, h2, h3, h4⟩
  unfold wordStep
  rw [extractAnsiCodes_no_esc hw]
  simp only [List.head?_nil]
  refine ⟨?_, ?_, ?_, ?_⟩
  · show ansiCollapse _ [] = []
    rw [List.drop_nil, List.append_nil]
    repeat' split
    all_goals
      first
        | (rw [hfin.2.2, h1]; exact ansiCollapse_nil)
        | (rw [h1]; exact ansiCollapse_nil)
        | exact ansiCollapse_nil
  · show escFree _
    repeat' split
    all_goals
      first
        | exact h2
        | exact escFree_append (escFree_append h2 escFree_space1) hw
        | exact escFree_append h2 hw
        | (refine escFree_append (escFree_append (escFree_spaces indent) ?_) hw
           first
             | (rw [hfin.2.2, h1]; exact escFree_nil)
             | (rw [h1]; exact escFree_nil))
  · show strWidth _ ≤ bound
    generalize hSP : (if cjkCount w > 0 ∧ cjkCount ws.prevWord > 0 then 0
      else if List.isEmpty ws.currentLine = true ∨ visibleLength w = 0 then 0
      else 1) = SP
    split
    next hcond =>
      split
      next hsp =>
        rw [visibleLength_no_esc hw, visibleLength_no_esc h2] at hcond
        rw [strWidth_append, strWidth_append, strWidth_space1]
        omega
      next hsp =>
        rw [visibleLength_no_esc hw, visibleLength_no_esc h2] at hcond
        rw [strWidth_append]
        omega
    next hcond =>
      split
      next hpos =>
        split
        · rw [hfin.2.2, h1, List.foldr_nil, strWidth_append, strWidth_append,
            strWidth_spaces, strWidth_nil]
          omega
        · rw [h1, List.foldr_nil, strWidth_append, strWidth_append,
            strWidth_spaces, strWidth_nil]
          omega
      next hpos => exact h3
  · show ∀ l ∈ _, visibleLength l ≤ _
    intro l hl
    repeat' split at hl
    all_goals try dsimp only at hl
    all_goals
      first
        | exact h4 l hl
        | exact hfin.1.2.2.2 l hl

end Streamdown

namespace Streamdown

theorem wrapFold_inv {fuel width indent bound Wd : Nat} {fp np resetter : Str}
    (hfp : escFree fp) (hnp : escFree np) (hres : resetterOk resetter)
    (hwb : width ≤ bound) (hib : indent + Wd ≤ bound) :
    ∀ (wl : List Str) (ws : WrapSt),
      (∀ w ∈ wl, escFree w ∧ strWidth w ≤ Wd) →
      wrapInv (max (strWidth fp) (strWidth np)) bound ws →
      wrapInv (max (strWidth fp) (strWidth np)) bound
        (wl.foldl (wordStep fuel width indent fp np false resetter) ws) := by
  intro wl
  induction wl with
  | nil => exact fun ws _ h => h
  | cons w rest ih =>
    intro ws hwl hws
    exact ih _ (fun v hv => hwl v (List.mem_cons_of_mem w hv))
      (wordStep_inv hfp hnp hres hwb hib (hwl w (List.mem_cons_self w rest)).1
        (hwl w (List.mem_cons_self w rest)).2 hws)

/-- C5 (amended): for `force_truncate = false` and escape-free text and
prefixes, every output line's visible width is at most the larger prefix
width plus `max width (indent + widest word)`; the requested width alone
is NOT an upper bound, because the continuation indent is not counted
when a word is moved to a fresh line. -/
theorem claim5_amended_bound (fuel : Nat) (text : Str) (width indent : Nat)
    (fp np : Str) (pf : Bool)
    (htext : escFree text) (hfp : escFree fp) (hnp : escFree np) :
    ∀ l ∈ (textWrap fuel text width indent fp np false pf).1.lines,
      visibleLength l ≤ max (strWidth fp) (strWidth np) +
        max width (indent + maxWordWidth text) := by
  intro l hl
  unfold textWrap at hl
  split at hl
  · exact absurd hl (List.not_mem_nil l)
  · dsimp only at hl
    split at hl
    · exact absurd hl (List.not_mem_nil l)
    · have hres : resetterOk
          (if pf then [] else escCh :: ('[' :: ('0' :: ('m' :: [])))) := by
        split
        · exact resetterOk_nil
        · exact resetterOk_sgr
      have hws0 : wrapInv (max (strWidth fp) (strWidth np))
          (max width (indent + maxWordWidth text))
          { lines := [], currentLine := [], currentStyle := [],
            truncated := false, prevWord := [], ok := true } :=
        ⟨rfl, escFree_nil, Nat.zero_le _,
          fun x hx => absurd hx (List.not_mem_nil x)⟩
      have hwl : ∀ w ∈ splitText text ++ [[]],
          escFree w ∧ strWidth w ≤ maxWordWidth text := by
        intro w hw
        rcases List.mem_append.mp hw with h | h
        · exact ⟨splitText_escFree htext w h, maxWordWidth_mem h⟩
        · rw [List.mem_singleton.mp h]
          exact ⟨escFree_nil, Nat.zero_le _⟩
      have hroot := @wrapFold_inv fuel width indent _ _ fp np _
        hfp hnp hres (Nat.le_max_left _ _)
        (Nat.le_max_right _ _) (splitText text ++ [[]])
        { lines := [], currentLine := [], currentStyle := [],
          truncated := false, prevWord := [], ok := true } hwl hws0
      set RES : Str := if pf then [] else escCh :: ('[' :: ('0' :: ('m' :: [])))
        with hRES
      set WS : WrapSt := List.foldl
        (wordStep fuel width indent fp np false RES)
        { lines := [], currentLine := [], currentStyle := [],
          truncated := false, prevWord := [], ok := true }
        (splitText text ++ [[]]) with hWS
      simp only [Bool.false_eq_true, if_false] at hl
      split at hl
      next hflush =>
        dsimp only at hl
        rcases List.mem_append.mp hl with h | h
        · exact hroot.2.2.2 l h
        · rw [List.mem_singleton.mp h]
          have hpre : escFree (if WS.lines.isEmpty then fp else np) := by
            split
            · exact hfp
            · exact hnp
          have hxs : escFree ((if WS.lines.isEmpty then fp else np) ++
              WS.currentLine) := escFree_append hpre hroot.2.1
          have hvl : visibleLength ((if WS.lines.isEmpty then fp else np) ++
              WS.currentLine ++ RES) =
              strWidth ((if WS.lines.isEmpty then fp else np) ++
                WS.currentLine) := by
            unfold visibleLength
            rw [← List.append_nil ((if WS.lines.isEmpty then fp else np) ++
              WS.currentLine ++ RES)]
            rw [hres _ [] hxs escFree_nil]
            rw [List.append_nil]
          rw [hvl, strWidth_append]
          have hp : strWidth (if WS.lines.isEmpty then fp else np) ≤
              max (strWidth fp) (strWidth np) := by
            split
            · exact Nat.le_max_left _ _
            · exact Nat.le_max_right _ _
          have hc := hroot.2.2.1
          omega
      next hflush =>
        exact hroot.2.2.2 l hl

end Streamdown

namespace Streamdown

/-- C5 (counterexample): text_wrap("aa bb", width 2, indent 1, no
prefixes, force_truncate false) yields lines of visible widths [2, 3]:
the second line " bb" exceeds the requested width although every word
fits in it (widest word = 2 = width), so the claimed `width` bound with
its single-wide-word exception is wrong. -/
theorem claim5_counterexample :
    ((textWrap 10 ("aa bb".data) 2 1 [] [] false false).1.lines).map
        visibleLength = [2, 3] ∧
    maxWordWidth ("aa bb".data) = 2 := by decide

theorem claim5_amended_bound_witness :
    visibleLength (((textWrap 10 ("aa bb".data) 2 1 [] [] false
        false).1.lines).getD 1 []) ≤
      max (strWidth []) (strWidth []) + max 2 (1 + maxWordWidth ("aa bb".data)) :=
  claim5_amended_bound 10 ("aa bb".data) 2 1 [] [] false
    (by unfold escFree; decide) (by unfold escFree; decide)
    (by unfold escFree; decide) _ (by decide)

end Streamdown
